import Mathlib

/-!
Verification development for the reV tech-mapping subsystem
(`reV/supply_curve/tech_mapping.py`, class `TechMapping`).

The embedding models:
* exclusion-pixel and resource-site coordinates as exact rationals
  (latitude, longitude);
* the cKDTree nearest-neighbor query as an argmin over squared Euclidean
  distance (comparing squared distances is equivalent to comparing
  Euclidean distances against a nonnegative bound, so the
  `distance_upper_bound` parameter is carried as its square `dub2`);
* numpy arrays as Lean lists, with fancy-indexing assignment
  (`arr[idxs] = values`, scalar broadcast included) as a fold of
  `List.set` operations;
* the HDF5 output file as an explicit `Store` structure;
* the process pool as pure per-batch worker calls whose results are
  scattered into the output arrays; completion order is a permutation of
  the submitted batch list and the pool size is an inert parameter.

Errors that the Python code raises (`np.min` of an empty array,
`FileInputError`, the uncaught `KeyError` in `_check_fout`) are modelled
with `Option`/explicit outcome types.
-/

/-- A geographic point: (latitude, longitude), exact rationals. -/
structure Pt where
  lat : ℚ
  lon : ℚ
deriving DecidableEq, Repr

/-- Squared Euclidean distance between two lat/lon points, as used by the
`cKDTree` built on raw (latitude, longitude) columns. -/
def sqDist (a b : Pt) : ℚ :=
  (a.lat - b.lat) ^ 2 + (a.lon - b.lon) ^ 2

/-- Running bounding box accumulated by `TechMapping._unpack_coords`:
(min, max) latitude and longitude over the pixels seen so far. -/
structure Rng where
  latMin : ℚ
  latMax : ℚ
  lonMin : ℚ
  lonMax : ℚ
deriving DecidableEq, Repr

/-- Bounding box of one gid's pixel block (`np.min`/`np.max` over the
block); `none` when the block is empty, where `np.min` would raise. -/
def rangeOfBlock : List Pt → Option Rng
  | [] => none
  | p :: ps =>
    some (ps.foldl
      (fun r q => ⟨min r.latMin q.lat, max r.latMax q.lat,
                   min r.lonMin q.lon, max r.lonMax q.lon⟩)
      ⟨p.lat, p.lat, p.lon, p.lon⟩)

/-- Merge two running bounding boxes (the `else` branch of the range
update in `_unpack_coords`). -/
def mergeRng (r s : Rng) : Rng :=
  ⟨min r.latMin s.latMin, max r.latMax s.latMax,
   min r.lonMin s.lonMin, max r.lonMax s.lonMax⟩

/-- The `lat_range`/`lon_range` accumulation loop of `_unpack_coords`:
`acc` is `none` before the first gid is processed; an empty pixel block
aborts the whole computation (`np.min` raises). -/
def unpackRangesAux : Option Rng → List (List Pt) → Option Rng
  | acc, [] => acc
  | acc, b :: bs =>
    match rangeOfBlock b with
    | none => none
    | some rb =>
      unpackRangesAux (some (match acc with
        | none => rb
        | some r => mergeRng r rb)) bs

/-- Batch bounding box over a list of per-gid pixel blocks, as computed by
`TechMapping._unpack_coords`. `none` if the batch is empty or any block is
empty. -/
def unpackRanges (blocks : List (List Pt)) : Option Rng :=
  unpackRangesAux none blocks

/-- The boolean mask of `map_resource_gids` (lines 320-323): a resource
site is a candidate when it lies strictly inside the batch bounding box
expanded by `margin`. -/
def inBox (r : Rng) (margin : ℚ) (p : Pt) : Bool :=
  decide (p.lat > r.latMin - margin) && decide (p.lat < r.latMax + margin)
    && decide (p.lon > r.lonMin - margin) && decide (p.lon < r.lonMax + margin)

/-- The masked resource subset together with its global row indices.
This fuses `mask`, `mask_ind = np.where(mask)[0]` and `res_meta[mask]`:
entry `(i, p)` means resource site `i` (global id) with coordinates `p`
is selected by the mask. -/
def candidates (resMeta : List Pt) (r : Rng) (margin : ℚ) : List (Nat × Pt) :=
  (List.range resMeta.length).filterMap (fun i =>
    match resMeta.get? i with
    | some p => if inBox r margin p then some (i, p) else none
    | none => none)

/-- One `cKDTree.query` call for a single pixel `p`: the (squared)
distance to the nearest candidate and that candidate's global resource-site
id (`mask_ind[ind]` is already applied since `candidates` carries global
ids). `none` when there are no candidates (the code never queries then). -/
def query1 (p : Pt) : List (Nat × Pt) → Option (ℚ × Nat)
  | [] => none
  | (j, q) :: rest =>
    match query1 p rest with
    | none => some (sqDist p q, j)
    | some (d, k) =>
      if d < sqDist p q then some (d, k) else some (sqDist p q, j)

/-- Per-pixel result of the resource pass: nearest candidate id, or `-1`
when the nearest (squared) distance exceeds the (squared) upper bound
(`ind[(dist > distance_upper_bound)] = -1`). -/
def pixResult (cands : List (Nat × Pt)) (dub2 : ℚ) (q : Pt) : Int :=
  match query1 q cands with
  | some (d, j) => if d > dub2 then -1 else (j : Int)
  | none => -1

/-- A value assigned into a numpy array slot: either an array of
per-pixel values or a scalar that numpy broadcasts over the slot. -/
inductive NpVal (α : Type) where
  | arr (xs : List α)
  | scalar (x : α)
deriving DecidableEq, Repr

/-- The worker `TechMapping.map_resource_gids`: unpack the batch
coordinates and bounding box, select candidate sites inside the expanded
box, then either resolve every pixel by nearest-neighbor query (mask
nonempty) or append a scalar `-1` per gid (mask empty). Returns the
per-gid index results and the pass-through coordinate blocks. `none`
models a raised exception (empty pixel block / empty batch). -/
def map_resource_gids (blocks : List (List Pt)) (resMeta : List Pt)
    (dub2 margin : ℚ) : Option (List (NpVal Int) × List (List Pt)) :=
  match unpackRanges blocks with
  | none => none
  | some rng =>
    let cands := candidates resMeta rng margin
    if cands.length > 0 then
      some (blocks.map (fun b => NpVal.arr (b.map (pixResult cands dub2))), blocks)
    else
      some (blocks.map (fun _ => NpVal.scalar (-1)), blocks)

/-- Elementary writes performed by one fancy-indexing assignment
`arr[idxs] = v`: a scalar is broadcast over every index, an array is
paired componentwise with the indices. -/
def writes : NpVal α → List Nat → List (Nat × α)
  | NpVal.scalar x, idxs => idxs.map (fun i => (i, x))
  | NpVal.arr xs, idxs => idxs.zip xs

/-- Apply a list of single-position writes to an array, left to right. -/
def setMany (arr : List α) (ws : List (Nat × α)) : List α :=
  ws.foldl (fun a iw => a.set iw.1 iw.2) arr

/-- All writes produced by scattering a list of per-gid results
(`ind_all[self._sc.get_flat_excl_ind(gid)] = result[j]` in the
`as_completed` loop), keyed by each gid's flat pixel indices. -/
def scatterWrites (flatIdx : Nat → List Nat) (results : List (Nat × NpVal α)) :
    List (Nat × α) :=
  (results.map (fun gv => writes gv.2 (flatIdx gv.1))).flatten

/-- `Option`-valued map over a list, failing if any element fails (the
first failing worker future aborts the whole parallel run). -/
def mapOpt (f : α → Option β) : List α → Option (List β)
  | [] => some []
  | x :: xs =>
    match f x, mapOpt f xs with
    | some y, some ys => some (y :: ys)
    | _, _ => none

/-- The HDF5 output file written by `TechMapping`: the file-level
`fpath_excl` provenance attribute, the cached `latitude`/`longitude`
pixel-coordinate datasets (flattened, row-major), and the integer index
datasets keyed by name. -/
structure Store where
  fpathExclAttr : Option String
  lat : Option (List ℚ)
  lon : Option (List ℚ)
  dsets : List (String × List Int)
deriving DecidableEq, Repr

/-- Association-list lookup for datasets by name (`dset in f`,
`f[dset]`). -/
def lookupD : List (String × α) → String → Option α
  | [], _ => none
  | (k, v) :: rest, n => if k = n then some v else lookupD rest n

/-- Create-or-overwrite of a dataset: `f[dset][...] = ind` when the name
exists (full replacement of the contents), `create_dataset` otherwise. -/
def dsetsSet (ds : List (String × List Int)) (name : String) (v : List Int) :
    List (String × List Int) :=
  if (lookupD ds name).isSome then
    ds.map (fun kv => if kv.1 = name then (name, v) else kv)
  else
    ds ++ [(name, v)]

/-- Control-flow outcome of `TechMapping._check_fout`. -/
inductive CheckOutcome where
  | proceed (wmsg : Option String)
  | keyError
  | fileInputError (emsg : String)
deriving DecidableEq, Repr

/-- `TechMapping._check_fout` (lines 72-111). When the output file
pre-exists and has no `fpath_excl` attribute, the first branch prepares a
warning, but the next statement reads `f.attrs['fpath_excl']`
unconditionally, so h5py raises an uncaught `KeyError` before any warning
or `FileInputError` is emitted. Each later warning assignment overwrites
`wmsg`, so only the last prepared warning is surfaced. -/
def check_fout (store : Option Store) (fpath_excl : String) (dset : String)
    (basename : String → String) : CheckOutcome :=
  match store with
  | none => CheckOutcome.proceed none
  | some f =>
    match f.fpathExclAttr with
    | none => CheckOutcome.keyError
    | some stored =>
      let wmsg : Option String :=
        if basename stored ≠ basename fpath_excl then
          some "exclusions file mismatch, proceeding at-risk"
        else none
      let emsg : Option String :=
        if f.lat = none ∨ f.lon = none then
          some "latitude and-or longitude not in pre-existing file"
        else none
      let wmsg : Option String :=
        if (lookupD f.dsets dset).isSome then
          some "results dataset is being replaced"
        else wmsg
      match emsg with
      | some e => CheckOutcome.fileInputError e
      | none => CheckOutcome.proceed wmsg

/-- Pixel coordinates as read back from the cached `latitude`/`longitude`
datasets of a pre-existing output file. -/
def cachedPix (f : Store) (p : Nat) : Pt :=
  ⟨(f.lat.getD []).getD p 0, (f.lon.getD []).getD p 0⟩

/-- The coordinate source used by `_unpack_coords` for pixel `p`: the
cached datasets when the output file exists, otherwise the raw exclusion
meta table. -/
def pixSource (store : Option Store) (pixCoord : Nat → Pt) : Nat → Pt :=
  match store with
  | none => pixCoord
  | some f => cachedPix f

/-- Per-gid coordinate blocks handed to the workers: gid `g`'s pixel
block holds the coordinates of its flat pixel indices, in order. -/
def unpackSource (store : Option Store) (flatIdx : Nat → List Nat)
    (pixCoord : Nat → Pt) : Nat → List Pt :=
  fun g => (flatIdx g).map (pixSource store pixCoord)

/-- `TechMapping.save_tech_map` (lines 469-518): if the file does not
exist yet and coordinates were produced, create it with the coordinate
datasets split into latitude/longitude columns and record the
`fpath_excl` provenance attribute; then create or fully overwrite the
requested index dataset. (Dataset chunking and the per-dataset audit
attributes carry no data relevant to the claims and are elided.) -/
def save_tech_map (store : Option Store) (ind : List Int)
    (coords : Option (List Pt)) (fpath_excl : String) (dset : String) : Store :=
  match store with
  | none =>
    match coords with
    | some cs =>
      ⟨some fpath_excl, some (cs.map Pt.lat), some (cs.map Pt.lon), [(dset, ind)]⟩
    | none =>
      ⟨none, none, none, [(dset, ind)]⟩
  | some f =>
    ⟨f.fpathExclAttr, f.lat, f.lon, dsetsSet f.dsets dset ind⟩

/-- One resource-pass worker future: the submitted batch paired with its
returned `(ind_out, coords_out)`. -/
def workerRes (blocksOf : Nat → List Pt) (resMeta : List Pt)
    (dub2 margin : ℚ) (c : List Nat) :
    Option (List Nat × (List (NpVal Int) × List (List Pt))) :=
  (map_resource_gids (c.map blocksOf) resMeta dub2 margin).map (fun r => (c, r))

/-- All index-array writes performed while collecting the completed
resource-pass futures, in completion order. -/
def indWrites (flatIdx : Nat → List Nat)
    (crs : List (List Nat × (List (NpVal Int) × List (List Pt)))) :
    List (Nat × Int) :=
  (crs.map (fun cr => scatterWrites flatIdx (cr.1.zip cr.2.1))).flatten

/-- All coordinate-array writes performed while collecting the completed
resource-pass futures, in completion order. -/
def coordWrites (flatIdx : Nat → List Nat)
    (crs : List (List Nat × (List (NpVal Int) × List (List Pt)))) :
    List (Nat × Pt) :=
  (crs.map (fun cr =>
    scatterWrites flatIdx (cr.1.zip (cr.2.2.map NpVal.arr)))).flatten

/-- The parallel resource-mapping run `_parallel_resource_map`: every
batch is handed to the (pure) worker, and the per-gid results are
scattered into the full `-1`-initialized index array and the
`0`-initialized coordinate array, keyed by each gid's flat pixel indices.
All futures are computed independently; the scatter applies their writes
in completion order (here: list order of `chunks`). `none` models a
worker exception aborting the run. -/
def assembleRes (blocksOf : Nat → List Pt) (flatIdx : Nat → List Nat)
    (chunks : List (List Nat)) (resMeta : List Pt) (dub2 margin : ℚ)
    (N : Nat) : Option (List Int × List Pt) :=
  match mapOpt (workerRes blocksOf resMeta dub2 margin) chunks with
  | none => none
  | some crs =>
    some
      (setMany (List.replicate N (-1)) (indWrites flatIdx crs),
       setMany (List.replicate N ⟨0, 0⟩) (coordWrites flatIdx crs))

/-- `TechMapping.run_resource_map`: validate an existing output file,
compute the mapping in parallel and save it. `n_cores` is the process
pool size; it does not influence the computed values. `none` models an
aborted run (validation failure or worker exception), in which case
nothing is written. -/
def run_resource_map (store : Option Store) (fpath_excl : String)
    (basename : String → String) (pixCoord : Nat → Pt)
    (flatIdx : Nat → List Nat) (chunks : List (List Nat))
    (resMeta : List Pt) (dub2 margin : ℚ) (N : Nat) (dset : String)
    (n_cores : Nat) : Option Store :=
  match check_fout store fpath_excl dset basename with
  | CheckOutcome.proceed _ =>
    match assembleRes (unpackSource store flatIdx pixCoord) flatIdx chunks
        resMeta dub2 margin N with
    | none => none
    | some (ind, coords) =>
      some (save_tech_map store ind (some coords) fpath_excl dset)
  | _ => none

/-- The candidate-site set a given batch works against: the mask over the
resource meta induced by the batch's margin-expanded bounding box. -/
def ChunkCands (blocksOf : Nat → List Pt) (resMeta : List Pt) (margin : ℚ)
    (chunk : List Nat) : Option (List (Nat × Pt)) :=
  (unpackRanges (chunk.map blocksOf)).map (fun rng => candidates resMeta rng margin)

/-- Row positions of the generation meta whose `gid` column equals `r`
(the match set of the pandas left join for one left row). -/
def matchRows (genGids : List Int) (r : Int) : List Nat :=
  (List.range genGids.length).filter (fun k => genGids.get? k = some r)

/-- Generation-row id resolved for one stored resource id: the matched
row position, or `-1` when the left join leaves a NaN. -/
def genLookup (genGids : List Int) (r : Int) : Int :=
  match matchRows genGids r with
  | [] => -1
  | k :: _ => (k : Int)

/-- The pandas left merge of one pixel block of stored resource ids
against the generation meta `gid` column, keeping the `gen_gid` row
positions; unmatched rows become `-1`
(`gen_gids[np.isnan(gen_gids)] = -1`). A duplicated gid in the right
table duplicates the joined row, exactly as `pd.merge` does. -/
def leftMerge (genGids : List Int) (blk : List Int) : List Int :=
  blk.flatMap (fun r =>
    match matchRows genGids r with
    | [] => [(-1 : Int)]
    | ps => ps.map (fun k => (k : Int)))

/-- The worker `TechMapping.map_gen_gids` (lines 408-467). The per-gid
loop appends one joined result array per gid; the trailing `else` clause
is attached to the `for` loop (Python for-else), and since the loop body
contains no `break` it always executes after the loop completes, appending
one further scalar `-1` per gid. -/
def map_gen_gids (resBlocks : List (List Int)) (genGids : List Int) :
    List (NpVal Int) :=
  resBlocks.map (fun blk => NpVal.arr (leftMerge genGids blk))
    ++ resBlocks.map (fun _ => NpVal.scalar (-1))

/-- Read one gid's pixel block out of a stored flat dataset
(`f[res_map_dset][row_slice, col_slice].flatten()`). -/
def readBlock (arr : List Int) (idxs : List Nat) : List Int :=
  idxs.map (fun i => arr.getD i 0)

/-- The parallel generation-mapping run `_parallel_gen_map` after its
validation: per-batch worker results scattered into the
`-1`-initialized index array. Scattering `result[j]` for `j` ranging over
the batch's gids consumes only the first `n` of the worker's `2n` list
entries (the `zip` truncates), exactly as the enumeration in the
`as_completed` loop does. -/
def genWrites (resArr : List Int) (genGids : List Int)
    (flatIdx : Nat → List Nat) (chunks : List (List Nat)) :
    List (Nat × Int) :=
  (chunks.map (fun c =>
    scatterWrites flatIdx
      (c.zip (map_gen_gids (c.map (fun g => readBlock resArr (flatIdx g)))
        genGids)))).flatten

def assembleGen (resArr : List Int) (genGids : List Int)
    (flatIdx : Nat → List Nat) (chunks : List (List Nat)) (N : Nat) :
    List Int :=
  setMany (List.replicate N (-1)) (genWrites resArr genGids flatIdx chunks)

/-- `TechMapping.run_gen_map`: `_check_fout` validation, then the
`_parallel_gen_map` pre-checks (output file must exist and must contain
the named resource-map dataset, `FileInputError` otherwise), then the
parallel mapping and the save. Returns the post-run store and the raised
error, if any; on error the store is returned unchanged since the
exception propagates before anything is written. -/
def run_gen_map (store : Option Store) (fpath_excl : String)
    (basename : String → String) (genGids : List Int)
    (flatIdx : Nat → List Nat) (chunks : List (List Nat)) (N : Nat)
    (dsetGen dsetRes : String) (n_cores : Nat) :
    Option Store × Option String :=
  match check_fout store fpath_excl dsetGen basename with
  | CheckOutcome.proceed _ =>
    match store with
    | none =>
      (store, some "TechMap file must exist before the generation mapping can run")
    | some f =>
      match lookupD f.dsets dsetRes with
      | none =>
        (store, some "Could not find pre-existing resource map dataset")
      | some resArr =>
        (some (save_tech_map store (assembleGen resArr genGids flatIdx chunks N)
          none fpath_excl dsetGen), none)
  | CheckOutcome.keyError => (store, some "KeyError: fpath_excl")
  | CheckOutcome.fileInputError e => (store, some e)

/-- `np.roll(lats, 1)`: rotate the array one step to the right (the last
entry moves to the front). -/
def npRoll1 : List ℚ → List ℚ
  | [] => []
  | x :: xs => (x :: xs).getLast (List.cons_ne_nil x xs) :: (x :: xs).dropLast

/-- Absolute difference, the elementwise `np.abs(lats - np.roll(lats, 1))`
operation. -/
def absDiff (a b : ℚ) : ℚ := |a - b|

/-- The raw `dists` array of the `distance_upper_bound` property (line
148): each latitude minus its predecessor (with wrap-around via
`np.roll`), in absolute value. -/
def distsRaw (lats : List ℚ) : List ℚ :=
  List.zipWith absDiff lats (npRoll1 lats)

/-- Specification-side list of adjacent latitude gaps: `|lats[i] -
lats[i+1]|` for consecutive entries, closing the cycle with the
(last, first) pair. A rotation of `distsRaw`. -/
def adjPairsSpec : List ℚ → List ℚ
  | [] => []
  | x :: xs => List.zipWith absDiff (x :: xs) (xs ++ [x])

/-- `np.min` over a possibly empty array: `none` models the raised
`ValueError` on an empty input. -/
def listMin? (l : List ℚ) : Option ℚ :=
  l.foldl (fun acc x =>
    match acc with
    | none => some x
    | some m => some (min m x)) none

/-- The `dists.min()` of the inference (line 150) after filtering out the
zero gaps (line 149). -/
def inferGap (lats : List ℚ) : Option ℚ :=
  listMin? ((distsRaw lats).filter (fun d => d != 0))

/-- The inferred upper bound `1.05 * (2 ** 0.5) * (dists.min() / 2)`:
half the diagonal of the minimum nonzero gap, plus a 5% margin. -/
noncomputable def inferredBound (lats : List ℚ) : Option ℝ :=
  (inferGap lats).map (fun g => (1.05 : ℝ) * Real.sqrt 2 * ((g : ℝ) / 2))

/-- The `distance_upper_bound` property (lines 131-155): a cached value
is returned as-is; otherwise the bound is inferred from the resource-site
latitudes, cached, and logged. The result triple is (returned value, new
cached value, values emitted to the log); `none` models the `ValueError`
raised by `dists.min()` on an empty filtered array. -/
noncomputable def distance_upper_bound_get (cached : Option ℝ)
    (lats : List ℚ) : Option (ℝ × Option ℝ × List ℝ) :=
  match cached with
  | some d => some (d, some d, [])
  | none => (inferredBound lats).map (fun d => (d, some d, [d]))

/-- All supply-curve gids have pairwise disjoint flat pixel-index slots:
distinct chunks address distinct pixels. -/
def SlotsDisjoint (flatIdx : Nat → List Nat) (gids : List Nat) : Prop :=
  ∀ g₁ ∈ gids, ∀ g₂ ∈ gids, g₁ ≠ g₂ → ∀ p ∈ flatIdx g₁, p ∉ flatIdx g₂

/-! ### List-array scatter lemmas -/

theorem length_setMany (ws : List (Nat × α)) (arr : List α) :
    (setMany arr ws).length = arr.length := by
  induction ws generalizing arr with
  | nil => rfl
  | cons w ws ih => simp [setMany] at ih ⊢; rw [ih, List.length_set]

theorem setMany_get?_cases (ws : List (Nat × α)) (arr : List α) (p : Nat) :
    (setMany arr ws).get? p = arr.get? p ∨
      ∃ v, (p, v) ∈ ws ∧ (setMany arr ws).get? p = some v := by
  induction ws generalizing arr with
  | nil => exact Or.inl rfl
  | cons w ws ih =>
    rcases ih (arr.set w.1 w.2) with h | ⟨v, hv, hg⟩
    · by_cases hpw : w.1 = p
      · by_cases hlt : p < arr.length
        · refine Or.inr ⟨w.2, ?_, ?_⟩
          · cases w with
            | mk a b => subst hpw; exact List.mem_cons_self _ _
          · rw [setMany, List.foldl_cons, ← setMany] at *
            rw [h, hpw, List.get?_set_eq_of_lt _ hlt]
        · left
          rw [setMany, List.foldl_cons, ← setMany, h, hpw]
          have hge : arr.length ≤ p := Nat.le_of_not_lt hlt
          rw [List.get?_eq_none.2 (by simpa using hge),
            List.get?_eq_none.2 (by simpa using hge)]
      · left
        rw [setMany, List.foldl_cons, ← setMany, h, List.get?_set_ne _ _ hpw]
    · exact Or.inr ⟨v, List.mem_cons_of_mem _ hv, by
        rw [setMany, List.foldl_cons, ← setMany]; exact hg⟩

theorem setMany_get?_const (ws : List (Nat × α)) (arr : List α) (p : Nat)
    (v₀ : α) (h₀ : arr.get? p = some v₀)
    (hall : ∀ v, (p, v) ∈ ws → v = v₀) :
    (setMany arr ws).get? p = some v₀ := by
  induction ws generalizing arr with
  | nil => exact h₀
  | cons w ws ih =>
    rw [setMany, List.foldl_cons, ← setMany]
    refine ih (arr.set w.1 w.2) ?_ (fun v hv => hall v (List.mem_cons_of_mem _ hv))
    by_cases hpw : w.1 = p
    · have hv : w.2 = v₀ := hall w.2 (by
        cases w with
        | mk a b => subst hpw; exact List.mem_cons_self _ _)
      have hlt : p < arr.length := by
        by_contra hge
        rw [List.get?_eq_none.2 (by simpa using Nat.le_of_not_lt hge)] at h₀
        exact Option.noConfusion h₀
      rw [hpw, List.get?_set_eq_of_lt _ hlt, hv]
    · rw [List.get?_set_ne _ _ hpw]; exact h₀

theorem setMany_get?_of_mem_const (ws : List (Nat × α)) (arr : List α)
    (p : Nat) (v₀ : α) (hp : p < arr.length) (hmem : (p, v₀) ∈ ws)
    (hall : ∀ v, (p, v) ∈ ws → v = v₀) :
    (setMany arr ws).get? p = some v₀ := by
  induction ws generalizing arr with
  | nil => cases hmem
  | cons w ws ih =>
    rw [setMany, List.foldl_cons, ← setMany]
    rcases List.mem_cons.1 hmem with hw | hw
    · subst hw
      exact setMany_get?_const ws (arr.set p v₀) p v₀
        (List.get?_set_eq_of_lt _ hp)
        (fun v hv => hall v (List.mem_cons_of_mem _ hv))
    · exact ih (arr.set w.1 w.2) (by rw [List.length_set]; exact hp) hw
        (fun v hv => hall v (List.mem_cons_of_mem _ hv))

theorem pair_eq_of_keys_nodup {ws : List (Nat × α)}
    (hnd : (ws.map Prod.fst).Nodup) {p : Nat} {v v' : α}
    (h : (p, v) ∈ ws) (h' : (p, v') ∈ ws) : v = v' := by
  induction ws with
  | nil => cases h
  | cons w ws ih =>
    rw [List.map_cons, List.nodup_cons] at hnd
    rcases List.mem_cons.1 h with hw | hw <;>
      rcases List.mem_cons.1 h' with hw' | hw'
    · rw [← hw] at hw'; exact (Prod.mk.injEq _ _ _ _ ▸ hw').2.symm ▸ rfl
    · exfalso
      apply hnd.1
      rw [← hw]
      exact List.mem_map.2 ⟨(p, v'), hw', rfl⟩
    · exfalso
      apply hnd.1
      rw [← hw']
      exact List.mem_map.2 ⟨(p, v), hw, rfl⟩
    · exact ih hnd.2 hw hw'

theorem setMany_get?_of_nodup_mem (ws : List (Nat × α)) (arr : List α)
    (p : Nat) (v : α) (hnd : (ws.map Prod.fst).Nodup)
    (hp : p < arr.length) (hmem : (p, v) ∈ ws) :
    (setMany arr ws).get? p = some v :=
  setMany_get?_of_mem_const ws arr p v hp hmem
    (fun v' hv' => pair_eq_of_keys_nodup hnd hv' hmem)

theorem setMany_perm {ws₁ ws₂ : List (Nat × α)} (h : ws₁.Perm ws₂) :
    (ws₁.map Prod.fst).Nodup → ∀ arr : List α, setMany arr ws₁ = setMany arr ws₂ := by
  induction h with
  | nil => exact fun _ _ => rfl
  | cons x h ih =>
    intro hnd arr
    simp only [setMany, List.foldl_cons]
    exact ih ((List.nodup_cons.1 (List.map_cons Prod.fst x _ ▸ hnd)).2) _
  | swap x y l =>
    intro hnd arr
    simp only [setMany, List.foldl_cons]
    have hxy : y.1 ≠ x.1 := by
      simp only [List.map_cons, List.nodup_cons, List.mem_cons, List.mem_map] at hnd
      exact fun hxe => hnd.1 (Or.inl hxe)
    congr 1
    exact List.set_comm _ _ _ hxy
  | trans h₁ h₂ ih₁ ih₂ =>
    intro hnd arr
    rw [ih₁ hnd arr, ih₂ ((h₁.map Prod.fst).nodup_iff.1 hnd) arr]

/-! ### `mapOpt` lemmas -/

theorem mapOpt_some_forall₂ {f : α → Option β} :
    ∀ (l : List α) (r : List β),
      mapOpt f l = some r ↔ List.Forall₂ (fun a b => f a = some b) l r := by
  intro l
  induction l with
  | nil =>
    intro r
    constructor
    · intro h
      cases r with
      | nil => exact List.Forall₂.nil
      | cons b bs => simp [mapOpt] at h
    · intro h
      cases h
      rfl
  | cons a as ih =>
    intro r
    constructor
    · intro h
      cases hfa : f a with
      | none => rw [mapOpt, hfa] at h; exact absurd h (by simp)
      | some b =>
        cases hrest : mapOpt f as with
        | none => rw [mapOpt, hfa, hrest] at h; exact absurd h (by simp)
        | some bs =>
          rw [mapOpt, hfa, hrest] at h
          injection h with h
          subst h
          exact List.Forall₂.cons hfa ((ih bs).1 hrest)
    · intro h
      cases h with
      | cons hab hrest =>
        rw [mapOpt, hab, (ih _).2 hrest]


theorem forall₂_mem_right {R : α → β → Prop} {l : List α} {r : List β}
    (h : List.Forall₂ R l r) : ∀ {b}, b ∈ r → ∃ a ∈ l, R a b := by
  induction h with
  | nil => intro b hb; cases hb
  | cons hab hrest ih =>
    intro b hb
    rcases List.mem_cons.1 hb with hb | hb
    · subst hb; exact ⟨_, List.mem_cons_self _ _, hab⟩
    · rcases ih hb with ⟨a, ha, hR⟩
      exact ⟨a, List.mem_cons_of_mem _ ha, hR⟩

theorem forall₂_mem_left {R : α → β → Prop} {l : List α} {r : List β}
    (h : List.Forall₂ R l r) : ∀ {a}, a ∈ l → ∃ b ∈ r, R a b := by
  induction h with
  | nil => intro a ha; cases ha
  | cons hab hrest ih =>
    intro a ha
    rcases List.mem_cons.1 ha with ha | ha
    · subst ha; exact ⟨_, List.mem_cons_self _ _, hab⟩
    · rcases ih ha with ⟨b, hb, hR⟩
      exact ⟨b, List.mem_cons_of_mem _ hb, hR⟩

theorem mapOpt_mem_exists {f : α → Option β} {l : List α} {r : List β}
    (h : mapOpt f l = some r) {b : β} (hb : b ∈ r) :
    ∃ a ∈ l, f a = some b :=
  forall₂_mem_right ((mapOpt_some_forall₂ l r).1 h) hb

theorem mapOpt_forall_exists {f : α → Option β} {l : List α} {r : List β}
    (h : mapOpt f l = some r) {a : α} (ha : a ∈ l) :
    ∃ b ∈ r, f a = some b :=
  forall₂_mem_left ((mapOpt_some_forall₂ l r).1 h) ha

theorem mapOpt_congr {f g : α → Option β} {l : List α}
    (h : ∀ a ∈ l, f a = g a) : mapOpt f l = mapOpt g l := by
  induction l with
  | nil => rfl
  | cons a as ih =>
    rw [mapOpt, mapOpt, h a (List.mem_cons_self _ _),
      ih (fun a ha => h a (List.mem_cons_of_mem _ ha))]

theorem mapOpt_isSome_iff {f : α → Option β} {l : List α} :
    (mapOpt f l).isSome ↔ ∀ a ∈ l, (f a).isSome := by
  induction l with
  | nil => simp [mapOpt]
  | cons a as ih =>
    constructor
    · intro h b hb
      rw [mapOpt] at h
      rcases List.mem_cons.1 hb with hb | hb
      · subst hb
        cases hfa : f b with
        | none => rw [hfa] at h; simp at h
        | some y => rfl
      · cases hfa : f a with
        | none => rw [hfa] at h; simp at h
        | some y =>
          rw [hfa] at h
          cases hrest : mapOpt f as with
          | none => rw [hrest] at h; simp at h
          | some ys => exact ih.1 (by rw [hrest]; rfl) b hb
    · intro h
      rw [mapOpt]
      cases hfa : f a with
      | none =>
        exact absurd (h a (List.mem_cons_self _ _)) (by rw [hfa]; simp)
      | some y =>
        have hrs : (mapOpt f as).isSome :=
          ih.2 (fun b hb => h b (List.mem_cons_of_mem _ hb))
        cases hrest : mapOpt f as with
        | none => rw [hrest] at hrs; simp at hrs
        | some ys => rfl

theorem mapOpt_eq_of_both {f : α → Option β} {l : List α} {r₁ r₂ : List β}
    (h₁ : mapOpt f l = some r₁) (h₂ : mapOpt f l = some r₂) : r₁ = r₂ := by
  rw [h₁] at h₂; injection h₂

theorem mapOpt_perm {f : α → Option β} {l₁ l₂ : List α} (h : l₁.Perm l₂) :
    ∀ {r₁ r₂ : List β}, mapOpt f l₁ = some r₁ → mapOpt f l₂ = some r₂ →
      r₁.Perm r₂ := by
  induction h with
  | nil =>
    intro r₁ r₂ h₁ h₂
    cases (mapOpt_some_forall₂ _ _).1 h₁
    cases (mapOpt_some_forall₂ _ _).1 h₂
    exact List.Perm.refl _
  | cons x h ih =>
    intro r₁ r₂ h₁ h₂
    rcases (mapOpt_some_forall₂ _ _).1 h₁ with _ | ⟨hx₁, hr₁⟩
    rcases (mapOpt_some_forall₂ _ _).1 h₂ with _ | ⟨hx₂, hr₂⟩
    rw [hx₁] at hx₂
    injection hx₂ with hx₂
    subst hx₂
    exact List.Perm.cons _ (ih ((mapOpt_some_forall₂ _ _).2 hr₁)
      ((mapOpt_some_forall₂ _ _).2 hr₂))
  | swap x y l =>
    intro r₁ r₂ h₁ h₂
    rcases (mapOpt_some_forall₂ _ _).1 h₁ with _ | ⟨hy₁, ht₁⟩
    rcases ht₁ with _ | ⟨hx₁, hr₁⟩
    rcases (mapOpt_some_forall₂ _ _).1 h₂ with _ | ⟨hx₂, ht₂⟩
    rcases ht₂ with _ | ⟨hy₂, hr₂⟩
    rw [hx₁] at hx₂
    injection hx₂ with hx₂
    subst hx₂
    rw [hy₁] at hy₂
    injection hy₂ with hy₂
    subst hy₂
    have hteq := mapOpt_eq_of_both ((mapOpt_some_forall₂ _ _).2 hr₁)
      ((mapOpt_some_forall₂ _ _).2 hr₂)
    subst hteq
    exact List.Perm.swap _ _ _
  | trans h₁ h₂ ih₁ ih₂ =>
    rename_i la lb lc
    intro r₁ r₂ hr₁ hr₂
    have hmid : (mapOpt f lb).isSome := by
      rw [mapOpt_isSome_iff]
      intro a ha
      exact mapOpt_isSome_iff.1 (by rw [hr₁]; rfl) a (h₁.mem_iff.2 ha)
    cases hmidv : mapOpt f lb with
    | none => rw [hmidv] at hmid; simp at hmid
    | some rm => exact (ih₁ hr₁ hmidv).trans (ih₂ hmidv hr₂)

/-! ### Nearest-neighbor query lemmas -/

theorem query1_eq_none {p : Pt} {cands : List (Nat × Pt)}
    (h : query1 p cands = none) : cands = [] := by
  cases cands with
  | nil => rfl
  | cons c rest =>
    obtain ⟨jc, qc⟩ := c
    rw [query1] at h
    cases hq : query1 p rest with
    | none => rw [hq] at h; cases h
    | some dk =>
      obtain ⟨d', k⟩ := dk
      rw [hq] at h
      dsimp only at h
      by_cases hlt : d' < sqDist p qc
      · rw [if_pos hlt] at h; cases h
      · rw [if_neg hlt] at h; cases h

theorem query1_spec {p : Pt} {cands : List (Nat × Pt)} {d : ℚ} {j : Nat}
    (h : query1 p cands = some (d, j)) :
    ∃ s, (j, s) ∈ cands ∧ d = sqDist p s ∧
      ∀ ks ∈ cands, d ≤ sqDist p ks.2 := by
  induction cands generalizing d j with
  | nil => cases h
  | cons c rest ih =>
    obtain ⟨jc, qc⟩ := c
    rw [query1] at h
    cases hq : query1 p rest with
    | none =>
      rw [hq] at h
      dsimp only at h
      injection h with h
      obtain ⟨hd, hj⟩ := Prod.mk.injEq _ _ _ _ ▸ h
      subst hd; subst hj
      have hrest : rest = [] := query1_eq_none hq
      subst hrest
      refine ⟨qc, List.mem_cons_self _ _, rfl, ?_⟩
      intro ks hks
      rcases List.mem_cons.1 hks with hks | hks
      · subst hks; exact le_refl _
      · cases hks
    | some dk =>
      obtain ⟨d', k⟩ := dk
      rw [hq] at h
      dsimp only at h
      by_cases hlt : d' < sqDist p qc
      · rw [if_pos hlt] at h
        injection h with h
        obtain ⟨hd, hj⟩ := Prod.mk.injEq _ _ _ _ ▸ h
        subst hd; subst hj
        rcases ih hq with ⟨s, hs, hd', hmin⟩
        refine ⟨s, List.mem_cons_of_mem _ hs, hd', ?_⟩
        intro ks hks
        rcases List.mem_cons.1 hks with hks | hks
        · subst hks; exact le_of_lt hlt
        · exact hmin ks hks
      · rw [if_neg hlt] at h
        injection h with h
        obtain ⟨hd, hj⟩ := Prod.mk.injEq _ _ _ _ ▸ h
        subst hd; subst hj
        rcases ih hq with ⟨s, hs, hd', hmin⟩
        refine ⟨qc, List.mem_cons_self _ _, rfl, ?_⟩
        intro ks hks
        rcases List.mem_cons.1 hks with hks | hks
        · subst hks; exact le_refl _
        · exact le_trans (le_of_not_lt hlt) (hd' ▸ hmin ks hks)

theorem mem_candidates {resMeta : List Pt} {r : Rng} {m : ℚ} {j : Nat}
    {s : Pt} :
    (j, s) ∈ candidates resMeta r m ↔
      resMeta.get? j = some s ∧ inBox r m s = true := by
  unfold candidates
  rw [List.mem_filterMap]
  constructor
  · rintro ⟨i, hi, hfi⟩
    cases hg : resMeta.get? i with
    | none => rw [hg] at hfi; cases hfi
    | some q =>
      rw [hg] at hfi
      dsimp only at hfi
      by_cases hb : inBox r m q
      · rw [if_pos hb] at hfi
        injection hfi with hfi
        obtain ⟨hij, hqs⟩ := Prod.mk.injEq _ _ _ _ ▸ hfi
        subst hij; subst hqs
        exact ⟨hg, hb⟩
      · rw [if_neg hb] at hfi; cases hfi
  · rintro ⟨hg, hb⟩
    refine ⟨j, List.mem_range.2 ?_, by rw [hg]; dsimp only; rw [if_pos hb]⟩
    by_contra hge
    rw [List.get?_eq_none.2 (Nat.le_of_not_lt hge)] at hg
    cases hg

/-! ### Write-list lemmas -/

theorem writes_key_mem {v : NpVal α} {idxs : List Nat} {p : Nat} {x : α}
    (h : (p, x) ∈ writes v idxs) : p ∈ idxs := by
  cases v with
  | scalar y =>
    rcases List.mem_map.1 h with ⟨i, hi, hix⟩
    obtain ⟨hip, _⟩ := Prod.mk.injEq _ _ _ _ ▸ hix
    exact hip ▸ hi
  | arr xs => exact (List.of_mem_zip h).1

theorem writes_scalar_val {x : α} {idxs : List Nat} {p : Nat} {v : α}
    (h : (p, v) ∈ writes (NpVal.scalar x) idxs) : v = x := by
  rcases List.mem_map.1 h with ⟨i, _, hix⟩
  exact ((Prod.mk.injEq _ _ _ _ ▸ hix).2).symm ▸ rfl

theorem writes_keys_eq_scalar (x : α) (idxs : List Nat) :
    (writes (NpVal.scalar x) idxs).map Prod.fst = idxs := by
  induction idxs with
  | nil => rfl
  | cons i is ih => simp only [writes, List.map_cons] at ih ⊢; rw [ih]

theorem writes_keys_eq_arr (xs : List α) (idxs : List Nat)
    (h : idxs.length ≤ xs.length) :
    (writes (NpVal.arr xs) idxs).map Prod.fst = idxs :=
  List.map_fst_zip _ _ h

theorem mem_zip_iff_get? {l₁ : List α} {l₂ : List β} {a : α} {b : β} :
    (a, b) ∈ l₁.zip l₂ ↔ ∃ i, l₁.get? i = some a ∧ l₂.get? i = some b := by
  induction l₁ generalizing l₂ with
  | nil => simp
  | cons x xs ih =>
    cases l₂ with
    | nil => simp
    | cons y ys =>
      rw [List.zip_cons_cons, List.mem_cons]
      constructor
      · intro h
        rcases h with h | h
        · obtain ⟨hx, hy⟩ := Prod.mk.injEq _ _ _ _ ▸ h
          exact ⟨0, by rw [hx]; rfl, by rw [hy]; rfl⟩
        · rcases ih.1 h with ⟨i, h₁, h₂⟩
          exact ⟨i + 1, h₁, h₂⟩
      · rintro ⟨i, h₁, h₂⟩
        cases i with
        | zero =>
          injection h₁ with h₁
          injection h₂ with h₂
          exact Or.inl (by rw [← h₁, ← h₂])
        | succ i => exact Or.inr (ih.2 ⟨i, h₁, h₂⟩)

theorem scatterWrites_mem {flatIdx : Nat → List Nat}
    {results : List (Nat × NpVal α)} {p : Nat} {x : α} :
    (p, x) ∈ scatterWrites flatIdx results ↔
      ∃ gv ∈ results, (p, x) ∈ writes gv.2 (flatIdx gv.1) := by
  unfold scatterWrites
  rw [List.mem_flatten]
  constructor
  · rintro ⟨l, hl, hx⟩
    rcases List.mem_map.1 hl with ⟨gv, hgv, hgl⟩
    exact ⟨gv, hgv, hgl ▸ hx⟩
  · rintro ⟨gv, hgv, hx⟩
    exact ⟨_, List.mem_map.2 ⟨gv, hgv, rfl⟩, hx⟩

/-! ### Store lemmas -/

theorem lookupD_map_replace (ds : List (String × List Int)) (name : String)
    (v : List Int) (h : (lookupD ds name).isSome) :
    lookupD (ds.map (fun kv => if kv.1 = name then (name, v) else kv)) name
      = some v := by
  induction ds with
  | nil => simp [lookupD] at h
  | cons kv rest ih =>
    obtain ⟨k, w⟩ := kv
    by_cases hk : k = name
    · subst hk
      rw [List.map_cons]
      have hhead : (if ((k, w) : String × List Int).1 = k
          then (k, v) else (k, w)) = (k, v) := by simp
      rw [hhead, lookupD]
      simp
    · rw [lookupD, if_neg hk] at h
      rw [List.map_cons]
      have hhead : (if ((k, w) : String × List Int).1 = name
          then (name, v) else (k, w)) = (k, w) := by simp [hk]
      rw [hhead, lookupD, if_neg hk]
      exact ih h

theorem lookupD_append_of_none (ds : List (String × List Int)) (name : String)
    (v : List Int) (h : lookupD ds name = none) :
    lookupD (ds ++ [(name, v)]) name = some v := by
  induction ds with
  | nil => simp [lookupD]
  | cons kv rest ih =>
    obtain ⟨k, w⟩ := kv
    by_cases hk : k = name
    · rw [lookupD, if_pos hk] at h; cases h
    · rw [lookupD, if_neg hk] at h
      rw [List.cons_append, lookupD, if_neg hk]
      exact ih h

theorem lookupD_dsetsSet (ds : List (String × List Int)) (name : String)
    (v : List Int) : lookupD (dsetsSet ds name v) name = some v := by
  unfold dsetsSet
  by_cases h : (lookupD ds name).isSome
  · rw [if_pos h]
    exact lookupD_map_replace ds name v h
  · rw [if_neg h]
    cases hv : lookupD ds name with
    | none => exact lookupD_append_of_none ds name v hv
    | some w => rw [hv] at h; simp at h

theorem lookup_save_dset (store : Option Store) (ind : List Int)
    (coords : Option (List Pt)) (fpath_excl : String) (dset : String) :
    lookupD (save_tech_map store ind coords fpath_excl dset).dsets dset
      = some ind := by
  cases store with
  | none =>
    cases coords with
    | none => simp [save_tech_map, lookupD]
    | some cs => simp [save_tech_map, lookupD]
  | some f => exact lookupD_dsetsSet f.dsets dset ind

/-! ### Worker structure lemmas -/

theorem map_resource_gids_some {blocks : List (List Pt)} {resMeta : List Pt}
    {dub2 m : ℚ} {io : List (NpVal Int)} {co : List (List Pt)}
    (h : map_resource_gids blocks resMeta dub2 m = some (io, co)) :
    co = blocks ∧ ∃ rng, unpackRanges blocks = some rng ∧
      (((candidates resMeta rng m).length > 0 ∧
        io = blocks.map (fun b =>
          NpVal.arr (b.map (pixResult (candidates resMeta rng m) dub2)))) ∨
       ((candidates resMeta rng m) = [] ∧
        io = blocks.map (fun _ => NpVal.scalar (-1)))) := by
  rw [map_resource_gids] at h
  cases hur : unpackRanges blocks with
  | none => rw [hur] at h; cases h
  | some rng =>
    rw [hur] at h
    dsimp only at h
    by_cases hc : (candidates resMeta rng m).length > 0
    · rw [if_pos hc] at h
      injection h with h
      obtain ⟨hio, hco⟩ := Prod.mk.injEq _ _ _ _ ▸ h
      exact ⟨hco.symm, rng, rfl, Or.inl ⟨hc, hio.symm⟩⟩
    · rw [if_neg hc] at h
      injection h with h
      obtain ⟨hio, hco⟩ := Prod.mk.injEq _ _ _ _ ▸ h
      refine ⟨hco.symm, rng, rfl, Or.inr ⟨?_, hio.symm⟩⟩
      exact List.length_eq_zero.1 (Nat.eq_zero_of_not_pos hc)

theorem workerRes_some {blocksOf : Nat → List Pt} {resMeta : List Pt}
    {dub2 m : ℚ} {c : List Nat}
    {cr : List Nat × (List (NpVal Int) × List (List Pt))}
    (h : workerRes blocksOf resMeta dub2 m c = some cr) :
    cr.1 = c ∧ map_resource_gids (c.map blocksOf) resMeta dub2 m = some cr.2 := by
  rw [workerRes] at h
  cases hw : map_resource_gids (c.map blocksOf) resMeta dub2 m with
  | none => rw [hw] at h; cases h
  | some r =>
    rw [hw] at h
    injection h with h
    exact ⟨by rw [← h], by rw [← h]⟩

/-! ### Flatten and key-list lemmas -/

theorem mem_flatten_map {f : γ → List δ} {l : List γ} {x : δ} :
    x ∈ (l.map f).flatten ↔ ∃ c ∈ l, x ∈ f c := by
  rw [List.mem_flatten]
  constructor
  · rintro ⟨s, hs, hx⟩
    rcases List.mem_map.1 hs with ⟨c, hc, hcs⟩
    exact ⟨c, hc, hcs ▸ hx⟩
  · rintro ⟨c, hc, hx⟩
    exact ⟨f c, List.mem_map.2 ⟨c, hc, rfl⟩, hx⟩

theorem flatten_map_flatten {f : γ → List δ} (L : List (List γ)) :
    (L.map (fun c => (c.map f).flatten)).flatten = (L.flatten.map f).flatten := by
  induction L with
  | nil => rfl
  | cons c L ih =>
    simp only [List.map_cons, List.flatten_cons, List.map_append,
      List.flatten_append, ih]

theorem map_fst_flatten_map {f : γ → List (Nat × α)} {l : List γ} :
    ((l.map f).flatten).map Prod.fst = (l.map (fun c => (f c).map Prod.fst)).flatten := by
  induction l with
  | nil => rfl
  | cons c l ih =>
    simp only [List.map_cons, List.flatten_cons, List.map_append, ih]

theorem map_congr_mem {f g : γ → δ} {l : List γ} (h : ∀ a ∈ l, f a = g a) :
    l.map f = l.map g := by
  induction l with
  | nil => rfl
  | cons a as ih =>
    rw [List.map_cons, List.map_cons, h a (List.mem_cons_self _ _),
      ih (fun a ha => h a (List.mem_cons_of_mem _ ha))]

theorem map_eq_of_forall₂ {R : γ → δ → Prop} {l : List γ} {r : List δ}
    {f : δ → ε} {g : γ → ε} (h : List.Forall₂ R l r)
    (hfg : ∀ c cr, R c cr → f cr = g c) : r.map f = l.map g := by
  induction h with
  | nil => rfl
  | cons hR hrest ih => rw [List.map_cons, List.map_cons, hfg _ _ hR, ih]

theorem scatterWrites_keys_res {blocksOf : Nat → List Pt} {resMeta : List Pt}
    {dub2 m : ℚ} {flatIdx : Nat → List Nat} {c : List Nat}
    {r : List (NpVal Int) × List (List Pt)}
    (hw : map_resource_gids (c.map blocksOf) resMeta dub2 m = some r)
    (hblock : ∀ g, (blocksOf g).length = (flatIdx g).length) :
    (scatterWrites flatIdx (c.zip r.1)).map Prod.fst = (c.map flatIdx).flatten := by
  obtain ⟨co_eq, rng, hur, hcase⟩ :=
    map_resource_gids_some (show _ = some (r.1, r.2) from hw)
  rw [scatterWrites, map_fst_flatten_map]
  have hlen : r.1.length = c.length := by
    rcases hcase with ⟨_, hio⟩ | ⟨_, hio⟩ <;>
      rw [hio, List.length_map, List.length_map]
  have hinner : (c.zip r.1).map (fun gv => (writes gv.2 (flatIdx gv.1)).map Prod.fst)
      = (c.zip r.1).map (fun gv => flatIdx gv.1) := by
    refine map_congr_mem ?_
    intro gv hgv
    rcases mem_zip_iff_get?.1 (show (gv.1, gv.2) ∈ c.zip r.1 from hgv) with
      ⟨k, hck, hrk⟩
    rcases hcase with ⟨_, hio⟩ | ⟨_, hio⟩
    · rw [hio, List.get?_map, List.get?_map, hck] at hrk
      injection hrk with hrk
      rw [← hrk]
      refine writes_keys_eq_arr _ _ ?_
      rw [List.length_map, hblock]
    · rw [hio, List.get?_map, List.get?_map, hck] at hrk
      injection hrk with hrk
      rw [← hrk]
      exact writes_keys_eq_scalar _ _
  rw [hinner]
  congr 1
  have : (c.zip r.1).map (fun gv => flatIdx gv.1)
      = ((c.zip r.1).map Prod.fst).map flatIdx := by
    rw [List.map_map]; rfl
  rw [this, List.map_fst_zip _ _ (le_of_eq hlen.symm)]

theorem scatterWrites_keys_coords {blocksOf : Nat → List Pt}
    {resMeta : List Pt} {dub2 m : ℚ} {flatIdx : Nat → List Nat} {c : List Nat}
    {r : List (NpVal Int) × List (List Pt)}
    (hw : map_resource_gids (c.map blocksOf) resMeta dub2 m = some r)
    (hblock : ∀ g, (blocksOf g).length = (flatIdx g).length) :
    (scatterWrites flatIdx (c.zip (r.2.map NpVal.arr))).map Prod.fst
      = (c.map flatIdx).flatten := by
  obtain ⟨co_eq, rng, hur, hcase⟩ :=
    map_resource_gids_some (show _ = some (r.1, r.2) from hw)
  rw [scatterWrites, map_fst_flatten_map]
  have hlen : (r.2.map NpVal.arr).length = c.length := by
    rw [List.length_map, co_eq, List.length_map]
  have hinner : (c.zip (r.2.map NpVal.arr)).map
        (fun gv => (writes gv.2 (flatIdx gv.1)).map Prod.fst)
      = (c.zip (r.2.map NpVal.arr)).map (fun gv => flatIdx gv.1) := by
    refine map_congr_mem ?_
    intro gv hgv
    rcases mem_zip_iff_get?.1
      (show (gv.1, gv.2) ∈ c.zip (r.2.map NpVal.arr) from hgv) with ⟨k, hck, hrk⟩
    rw [co_eq, List.map_map, List.get?_map, hck] at hrk
    injection hrk with hrk
    rw [← hrk]
    refine writes_keys_eq_arr _ _ ?_
    exact le_of_eq (hblock gv.1).symm
  rw [hinner]
  congr 1
  have : (c.zip (r.2.map NpVal.arr)).map (fun gv => flatIdx gv.1)
      = ((c.zip (r.2.map NpVal.arr)).map Prod.fst).map flatIdx := by
    rw [List.map_map]; rfl
  rw [this, List.map_fst_zip _ _ (le_of_eq hlen.symm)]

theorem indWrites_keys {blocksOf : Nat → List Pt} {resMeta : List Pt}
    {dub2 m : ℚ} {flatIdx : Nat → List Nat} {chunks : List (List Nat)}
    {crs : List (List Nat × (List (NpVal Int) × List (List Pt)))}
    (hcrs : mapOpt (workerRes blocksOf resMeta dub2 m) chunks = some crs)
    (hblock : ∀ g, (blocksOf g).length = (flatIdx g).length) :
    (indWrites flatIdx crs).map Prod.fst = (chunks.flatten.map flatIdx).flatten := by
  have hf₂ := (mapOpt_some_forall₂ _ _).1 hcrs
  rw [indWrites, map_fst_flatten_map, ← flatten_map_flatten]
  congr 1
  refine map_eq_of_forall₂ hf₂ ?_
  intro c cr hR
  obtain ⟨h1, h2⟩ := workerRes_some hR
  rw [h1]
  exact scatterWrites_keys_res h2 hblock

theorem coordWrites_keys {blocksOf : Nat → List Pt} {resMeta : List Pt}
    {dub2 m : ℚ} {flatIdx : Nat → List Nat} {chunks : List (List Nat)}
    {crs : List (List Nat × (List (NpVal Int) × List (List Pt)))}
    (hcrs : mapOpt (workerRes blocksOf resMeta dub2 m) chunks = some crs)
    (hblock : ∀ g, (blocksOf g).length = (flatIdx g).length) :
    (coordWrites flatIdx crs).map Prod.fst = (chunks.flatten.map flatIdx).flatten := by
  have hf₂ := (mapOpt_some_forall₂ _ _).1 hcrs
  rw [coordWrites, map_fst_flatten_map, ← flatten_map_flatten]
  congr 1
  refine map_eq_of_forall₂ hf₂ ?_
  intro c cr hR
  obtain ⟨h1, h2⟩ := workerRes_some hR
  rw [h1]
  exact scatterWrites_keys_coords h2 hblock

theorem keys_nodup_of_hyps {flatIdx : Nat → List Nat} {chunks : List (List Nat)}
    (hgids : chunks.flatten.Nodup)
    (hnod : ∀ g ∈ chunks.flatten, (flatIdx g).Nodup)
    (hdisj : SlotsDisjoint flatIdx chunks.flatten) :
    ((chunks.flatten.map flatIdx).flatten).Nodup := by
  rw [List.nodup_flatten]
  constructor
  · intro l hl
    rcases List.mem_map.1 hl with ⟨g, hg, hgl⟩
    exact hgl ▸ hnod g hg
  · rw [List.pairwise_map]
    refine List.Pairwise.imp_of_mem ?_ hgids
    intro a b ha hb hab
    intro p hpa hpb
    exact hdisj a ha b hb hab p hpa hpb

/-! ### Run-level unfolding -/

theorem run_resource_map_some {store : Option Store} {fexcl : String}
    {basename : String → String} {pixCoord : Nat → Pt}
    {flatIdx : Nat → List Nat} {chunks : List (List Nat)} {resMeta : List Pt}
    {dub2 m : ℚ} {N : Nat} {dset : String} {nc : Nat} {S : Store}
    (h : run_resource_map store fexcl basename pixCoord flatIdx chunks
      resMeta dub2 m N dset nc = some S) :
    ∃ w crs,
      check_fout store fexcl dset basename = CheckOutcome.proceed w ∧
      mapOpt (workerRes (unpackSource store flatIdx pixCoord) resMeta dub2 m)
        chunks = some crs ∧
      S = save_tech_map store
            (setMany (List.replicate N (-1)) (indWrites flatIdx crs))
            (some (setMany (List.replicate N ⟨0, 0⟩) (coordWrites flatIdx crs)))
            fexcl dset := by
  rw [run_resource_map] at h
  cases hc : check_fout store fexcl dset basename with
  | proceed w =>
    rw [hc] at h
    dsimp only at h
    cases har : assembleRes (unpackSource store flatIdx pixCoord) flatIdx
        chunks resMeta dub2 m N with
    | none => rw [har] at h; cases h
    | some ic =>
      obtain ⟨ind, coords⟩ := ic
      rw [har] at h
      dsimp only at h
      injection h with h
      rw [assembleRes] at har
      cases hcrs : mapOpt (workerRes (unpackSource store flatIdx pixCoord)
          resMeta dub2 m) chunks with
      | none => rw [hcrs] at har; cases har
      | some crs =>
        rw [hcrs] at har
        dsimp only at har
        injection har with har
        obtain ⟨hind, hcoords⟩ := Prod.mk.injEq _ _ _ _ ▸ har
        refine ⟨w, crs, rfl, rfl, ?_⟩
        rw [← h, ← hind, ← hcoords]
  | keyError => rw [hc] at h; cases h
  | fileInputError e => rw [hc] at h; cases h

/-- The value of every index-array write performed by the resource pass:
either the sentinel `-1`, or a candidate resource-site id at (squared)
distance within the bound and minimal over the batch's candidate set. -/
theorem indWrites_value {store : Option Store} {pixCoord : Nat → Pt}
    {flatIdx : Nat → List Nat} {resMeta : List Pt} {dub2 m : ℚ}
    {chunks : List (List Nat)}
    {crs : List (List Nat × (List (NpVal Int) × List (List Pt)))}
    (hcrs : mapOpt (workerRes (unpackSource store flatIdx pixCoord) resMeta
      dub2 m) chunks = some crs)
    {p : Nat} {v : Int} (hmem : (p, v) ∈ indWrites flatIdx crs) :
    v = -1 ∨
      ∃ c ∈ chunks, ∃ cands,
        ChunkCands (unpackSource store flatIdx pixCoord) resMeta m c
          = some cands ∧
        ∃ (j : Nat) (s : Pt), v = (j : Int) ∧ (j, s) ∈ cands ∧
          sqDist (pixSource store pixCoord p) s ≤ dub2 ∧
          ∀ ks ∈ cands, sqDist (pixSource store pixCoord p) s
            ≤ sqDist (pixSource store pixCoord p) ks.2 := by
  rw [indWrites] at hmem
  rcases mem_flatten_map.1 hmem with ⟨cr, hcr, hw⟩
  rcases mapOpt_mem_exists hcrs hcr with ⟨c, hc, hwc⟩
  obtain ⟨h1, h2⟩ := workerRes_some hwc
  rw [h1] at hw
  rcases scatterWrites_mem.1 hw with ⟨gv, hgv, hpv⟩
  obtain ⟨co_eq, rng, hur, hcase⟩ :=
    map_resource_gids_some (show _ = some (cr.2.1, cr.2.2) from h2)
  rcases hcase with ⟨hpos, hio⟩ | ⟨hnil, hio⟩
  · -- nonempty candidate set: per-pixel nearest-neighbor values
    rcases mem_zip_iff_get?.1 (show (gv.1, gv.2) ∈ c.zip cr.2.1 from hgv) with
      ⟨k, hck, hrk⟩
    rw [hio, List.get?_map, List.get?_map, hck] at hrk
    injection hrk with hrk
    rw [← hrk] at hpv
    rw [writes] at hpv
    rcases mem_zip_iff_get?.1 hpv with ⟨i, hfi, hvi⟩
    rw [unpackSource, List.map_map, List.get?_map, hfi] at hvi
    injection hvi with hvi
    have hvp : v = pixResult (candidates resMeta rng m) dub2
        (pixSource store pixCoord p) := hvi.symm
    rw [pixResult] at hvp
    cases hq : query1 (pixSource store pixCoord p) (candidates resMeta rng m) with
    | none => rw [hq] at hvp; exact Or.inl hvp
    | some dj =>
      obtain ⟨d, j⟩ := dj
      rw [hq] at hvp
      dsimp only at hvp
      by_cases hd : d > dub2
      · rw [if_pos hd] at hvp
        exact Or.inl hvp
      · rw [if_neg hd] at hvp
        rcases query1_spec hq with ⟨s, hjs, hds, hmin⟩
        refine Or.inr ⟨c, hc, candidates resMeta rng m, ?_, j, s, hvp, hjs,
          ?_, ?_⟩
        · rw [ChunkCands, hur]; rfl
        · rw [← hds]; exact le_of_not_lt hd
        · intro ks hks
          rw [← hds]
          exact hmin ks hks
  · -- empty candidate set: scalar -1 broadcast
    have hscal : gv.2 = NpVal.scalar (-1) := by
      have hmem2 : gv.2 ∈ cr.2.1 := (List.of_mem_zip hgv).2
      rw [hio] at hmem2
      rcases List.mem_map.1 hmem2 with ⟨b, _, hb⟩
      exact hb.symm
    rw [hscal] at hpv
    exact Or.inl (writes_scalar_val hpv)

theorem replicate_get?_of_lt {a : α} {n p : Nat} (hp : p < n) :
    (List.replicate n a).get? p = some a := by
  rw [List.get?_eq_getElem?]
  exact List.getElem?_replicate_of_lt hp

theorem chunkCands_some {blocksOf : Nat → List Pt} {resMeta : List Pt}
    {m : ℚ} {c : List Nat} {cands : List (Nat × Pt)}
    (h : ChunkCands blocksOf resMeta m c = some cands) :
    ∃ rng, unpackRanges (c.map blocksOf) = some rng ∧
      cands = candidates resMeta rng m := by
  rw [ChunkCands] at h
  cases hur : unpackRanges (c.map blocksOf) with
  | none => rw [hur] at h; cases h
  | some rng =>
    rw [hur] at h
    injection h with h
    exact ⟨rng, rfl, h.symm⟩

/-- C1: after `run_resource_map`, every pixel of the persisted index map
is `-1`, or holds the global resource-site id of a nearest candidate site
of its batch (squared distance minimal over the batch's candidate set and
within the squared `distance_upper_bound`). -/
theorem c1_resource_map_nearest
    (store : Option Store) (fexcl : String) (basename : String → String)
    (pixCoord : Nat → Pt) (flatIdx : Nat → List Nat)
    (chunks : List (List Nat)) (resMeta : List Pt) (dub2 m : ℚ) (N : Nat)
    (dset : String) (nc : Nat) (S : Store) (p : Nat)
    (hrun : run_resource_map store fexcl basename pixCoord flatIdx chunks
      resMeta dub2 m N dset nc = some S)
    (hp : p < N) :
    ∃ ind, lookupD S.dsets dset = some ind ∧ ind.length = N ∧
      (ind.get? p = some (-1) ∨
       ∃ c ∈ chunks, ∃ cands,
         ChunkCands (unpackSource store flatIdx pixCoord) resMeta m c
           = some cands ∧
         ∃ (j : Nat) (s : Pt), ind.get? p = some (j : Int) ∧ (j, s) ∈ cands ∧
           resMeta.get? j = some s ∧
           sqDist (pixSource store pixCoord p) s ≤ dub2 ∧
           ∀ ks ∈ cands, sqDist (pixSource store pixCoord p) s
             ≤ sqDist (pixSource store pixCoord p) ks.2) := by
  obtain ⟨w, crs, hck, hcrs, hS⟩ := run_resource_map_some hrun
  refine ⟨setMany (List.replicate N (-1)) (indWrites flatIdx crs), ?_, ?_, ?_⟩
  · rw [hS]
    exact lookup_save_dset _ _ _ _ _
  · rw [length_setMany, List.length_replicate]
  · rcases setMany_get?_cases (indWrites flatIdx crs)
      (List.replicate N (-1)) p with h | ⟨v, hv, hg⟩
    · left
      rw [h]
      exact replicate_get?_of_lt hp
    · rcases indWrites_value hcrs hv with hval |
        ⟨c, hc, cands, hcc, j, s, hvj, hjs, hle, hmin⟩
      · left
        rw [hg, hval]
      · right
        refine ⟨c, hc, cands, hcc, j, s, ?_, hjs, ?_, hle, hmin⟩
        · rw [hg, hvj]
        · obtain ⟨rng, _, hcands⟩ := chunkCands_some hcc
          exact (mem_candidates.1 (hcands ▸ hjs)).1

/-- C6: a batch whose margin-expanded bounding box selects no candidate
sites raises no error (the worker still returns a result), and after
scattering, every pixel of that batch holds `-1` in the final index
dataset. -/
theorem c6_empty_batch_all_minus_one
    (store : Option Store) (fexcl : String) (basename : String → String)
    (pixCoord : Nat → Pt) (flatIdx : Nat → List Nat)
    (chunks : List (List Nat)) (resMeta : List Pt) (dub2 m : ℚ) (N : Nat)
    (dset : String) (nc : Nat) (S : Store) (chunk : List Nat) (rng : Rng)
    (g p : Nat)
    (hgids : chunks.flatten.Nodup)
    (hdisj : SlotsDisjoint flatIdx chunks.flatten)
    (hchunk : chunk ∈ chunks)
    (hrng : unpackRanges (chunk.map (unpackSource store flatIdx pixCoord))
      = some rng)
    (hempty : candidates resMeta rng m = [])
    (hrun : run_resource_map store fexcl basename pixCoord flatIdx chunks
      resMeta dub2 m N dset nc = some S)
    (hg : g ∈ chunk) (hp : p ∈ flatIdx g) (hpN : p < N) :
    (map_resource_gids (chunk.map (unpackSource store flatIdx pixCoord))
      resMeta dub2 m).isSome ∧
    ∃ ind, lookupD S.dsets dset = some ind ∧ ind.get? p = some (-1) := by
  obtain ⟨w, crs, hck, hcrs, hS⟩ := run_resource_map_some hrun
  have hwork : map_resource_gids
      (chunk.map (unpackSource store flatIdx pixCoord)) resMeta dub2 m
      = some (chunk.map (fun _ => NpVal.scalar (-1)),
              chunk.map (unpackSource store flatIdx pixCoord)) := by
    rw [map_resource_gids, hrng]
    dsimp only
    rw [hempty]
    rw [if_neg (by simp), List.map_map]
    rfl
  refine ⟨by rw [hwork]; rfl,
    setMany (List.replicate N (-1)) (indWrites flatIdx crs), ?_, ?_⟩
  · rw [hS]
    exact lookup_save_dset _ _ _ _ _
  · refine setMany_get?_const _ _ _ _ (replicate_get?_of_lt hpN) ?_
    intro v hv
    rw [indWrites] at hv
    rcases mem_flatten_map.1 hv with ⟨cr, hcr, hwmem⟩
    rcases mapOpt_mem_exists hcrs hcr with ⟨c, hc, hwc⟩
    obtain ⟨h1, h2⟩ := workerRes_some hwc
    rw [h1] at hwmem
    rcases scatterWrites_mem.1 hwmem with ⟨gv, hgv, hpv⟩
    have hgc : gv.1 ∈ c := (List.of_mem_zip hgv).1
    have hkey : p ∈ flatIdx gv.1 := writes_key_mem hpv
    have hgmem : g ∈ chunks.flatten := List.mem_flatten.2 ⟨chunk, hchunk, hg⟩
    have hgvmem : gv.1 ∈ chunks.flatten := List.mem_flatten.2 ⟨c, hc, hgc⟩
    have hgveq : gv.1 = g := by
      by_contra hne
      exact hdisj gv.1 hgvmem g hgmem hne p hkey hp
    have hceq : c = chunk := by
      by_contra hne
      have hpair := (List.nodup_flatten.1 hgids).2
      have hdisj2 := hpair.forall (fun l₁ l₂ h => List.Disjoint.symm h)
      exact (hdisj2 hc hchunk hne) (hgveq ▸ hgc) hg
    subst hceq
    rw [hwork] at h2
    injection h2 with h2
    have h21 : cr.2.1 = c.map (fun _ => NpVal.scalar (-1)) := by rw [← h2]
    have hv2 : gv.2 = NpVal.scalar (-1) := by
      have hmm := (List.of_mem_zip hgv).2
      rw [h21] at hmm
      rcases List.mem_map.1 hmm with ⟨b, _, hb⟩
      exact hb.symm
    rw [hv2] at hpv
    exact writes_scalar_val hpv

theorem unpackSource_length (store : Option Store) (flatIdx : Nat → List Nat)
    (pixCoord : Nat → Pt) (g : Nat) :
    (unpackSource store flatIdx pixCoord g).length = (flatIdx g).length := by
  rw [unpackSource, List.length_map]

/-- C8: the assembled output store is deterministic: two runs over the
same batches that differ in worker count and in the completion order of
the batch futures (any permutation) produce identical stores, because
each per-gid result is scattered into the slots keyed by that gid's flat
pixel indices. -/
theorem c8_order_and_worker_count_invariance
    (store : Option Store) (fexcl : String) (basename : String → String)
    (pixCoord : Nat → Pt) (flatIdx : Nat → List Nat)
    (chunks₁ chunks₂ : List (List Nat)) (resMeta : List Pt) (dub2 m : ℚ)
    (N : Nat) (dset : String) (n₁ n₂ : Nat) (S₁ S₂ : Store)
    (hperm : chunks₁.Perm chunks₂)
    (hgids : chunks₂.flatten.Nodup)
    (hnod : ∀ g ∈ chunks₂.flatten, (flatIdx g).Nodup)
    (hdisj : SlotsDisjoint flatIdx chunks₂.flatten)
    (h₁ : run_resource_map store fexcl basename pixCoord flatIdx chunks₁
      resMeta dub2 m N dset n₁ = some S₁)
    (h₂ : run_resource_map store fexcl basename pixCoord flatIdx chunks₂
      resMeta dub2 m N dset n₂ = some S₂) :
    S₁ = S₂ := by
  obtain ⟨w₁, crs₁, hck₁, hcrs₁, hS₁⟩ := run_resource_map_some h₁
  obtain ⟨w₂, crs₂, hck₂, hcrs₂, hS₂⟩ := run_resource_map_some h₂
  have hcp : crs₁.Perm crs₂ := mapOpt_perm hperm hcrs₁ hcrs₂
  have hblock : ∀ g, (unpackSource store flatIdx pixCoord g).length
      = (flatIdx g).length := unpackSource_length store flatIdx pixCoord
  have hkeys₂ : ((indWrites flatIdx crs₂).map Prod.fst).Nodup := by
    rw [indWrites_keys hcrs₂ hblock]
    exact keys_nodup_of_hyps hgids hnod hdisj
  have hckeys₂ : ((coordWrites flatIdx crs₂).map Prod.fst).Nodup := by
    rw [coordWrites_keys hcrs₂ hblock]
    exact keys_nodup_of_hyps hgids hnod hdisj
  have hiw : (indWrites flatIdx crs₂).Perm (indWrites flatIdx crs₁) :=
    ((hcp.map _).flatten).symm
  have hcw : (coordWrites flatIdx crs₂).Perm (coordWrites flatIdx crs₁) :=
    ((hcp.map _).flatten).symm
  have hind : setMany (List.replicate N (-1)) (indWrites flatIdx crs₂)
      = setMany (List.replicate N (-1)) (indWrites flatIdx crs₁) :=
    setMany_perm hiw hkeys₂ _
  have hcoords : setMany (List.replicate N (⟨0, 0⟩ : Pt))
        (coordWrites flatIdx crs₂)
      = setMany (List.replicate N (⟨0, 0⟩ : Pt)) (coordWrites flatIdx crs₁) :=
    setMany_perm hcw hckeys₂ _
  rw [hS₁, hS₂, hind, hcoords]

/-- After the first (cache-building) run, the assembled coordinate array
holds the raw exclusion-meta coordinates at every pixel covered by some
gid. -/
theorem coords_readback {pixCoord : Nat → Pt} {flatIdx : Nat → List Nat}
    {chunks : List (List Nat)} {resMeta : List Pt} {dub2 m : ℚ} {N : Nat}
    {crs : List (List Nat × (List (NpVal Int) × List (List Pt)))}
    (hcrs : mapOpt (workerRes (unpackSource none flatIdx pixCoord) resMeta
      dub2 m) chunks = some crs)
    (hgids : chunks.flatten.Nodup)
    (hnod : ∀ g ∈ chunks.flatten, (flatIdx g).Nodup)
    (hdisj : SlotsDisjoint flatIdx chunks.flatten)
    {g p : Nat} (hg : g ∈ chunks.flatten) (hp : p ∈ flatIdx g) (hpN : p < N) :
    (setMany (List.replicate N (⟨0, 0⟩ : Pt)) (coordWrites flatIdx crs)).get? p
      = some (pixCoord p) := by
  refine setMany_get?_of_nodup_mem _ _ _ _ ?_ ?_ ?_
  · rw [coordWrites_keys hcrs (unpackSource_length none flatIdx pixCoord)]
    exact keys_nodup_of_hyps hgids hnod hdisj
  · rw [List.length_replicate]
    exact hpN
  · rcases List.mem_flatten.1 hg with ⟨c, hc, hgc⟩
    rcases mapOpt_forall_exists hcrs hc with ⟨cr, hcr, hwc⟩
    obtain ⟨h1, h2⟩ := workerRes_some hwc
    obtain ⟨co_eq, rng, hur, hcase⟩ :=
      map_resource_gids_some (show _ = some (cr.2.1, cr.2.2) from h2)
    rw [coordWrites]
    apply mem_flatten_map.2
    refine ⟨cr, hcr, ?_⟩
    apply scatterWrites_mem.2
    rcases List.mem_iff_get?.1 hgc with ⟨k, hk⟩
    rcases List.mem_iff_get?.1 hp with ⟨i, hi⟩
    refine ⟨(g, NpVal.arr (unpackSource none flatIdx pixCoord g)), ?_, ?_⟩
    · rw [h1]
      apply mem_zip_iff_get?.2
      refine ⟨k, hk, ?_⟩
      rw [co_eq, List.map_map, List.get?_map, hk]
      rfl
    · rw [writes]
      apply mem_zip_iff_get?.2
      refine ⟨i, hi, ?_⟩
      show ((flatIdx g).map (pixSource none pixCoord)).get? i = some (pixCoord p)
      rw [List.get?_map, hi]
      rfl

theorem dsetsSet_self (dset : String) (ind : List Int) :
    dsetsSet [(dset, ind)] dset ind = [(dset, ind)] := by
  rw [dsetsSet, if_pos (by rw [lookupD, if_pos rfl]; rfl)]
  simp

/-- C3: rerunning the resource mapping with unchanged inputs against the
file produced by a first run yields an identical store — in particular an
identical index map — even though the rerun reads the pixel coordinates
from the cached `latitude`/`longitude` datasets rather than the raw
exclusion meta, because the cached coordinates agree with the raw ones
and the index dataset is entirely replaced on save. -/
theorem c3_idempotent_rerun
    (fexcl : String) (basename : String → String) (pixCoord : Nat → Pt)
    (flatIdx : Nat → List Nat) (chunks : List (List Nat)) (resMeta : List Pt)
    (dub2 m : ℚ) (N : Nat) (dset : String) (n₁ n₂ : Nat) (S₁ S₂ : Store)
    (hgids : chunks.flatten.Nodup)
    (hnod : ∀ g ∈ chunks.flatten, (flatIdx g).Nodup)
    (hdisj : SlotsDisjoint flatIdx chunks.flatten)
    (hbound : ∀ g ∈ chunks.flatten, ∀ p ∈ flatIdx g, p < N)
    (h₁ : run_resource_map none fexcl basename pixCoord flatIdx chunks
      resMeta dub2 m N dset n₁ = some S₁)
    (h₂ : run_resource_map (some S₁) fexcl basename pixCoord flatIdx chunks
      resMeta dub2 m N dset n₂ = some S₂) :
    S₂ = S₁ ∧ lookupD S₂.dsets dset = lookupD S₁.dsets dset := by
  obtain ⟨w₁, crs₁, hck₁, hcrs₁, hS₁⟩ := run_resource_map_some h₁
  obtain ⟨w₂, crs₂, hck₂, hcrs₂, hS₂⟩ := run_resource_map_some h₂
  have hS₁' : S₁ = ⟨some fexcl,
      some ((setMany (List.replicate N (⟨0, 0⟩ : Pt))
        (coordWrites flatIdx crs₁)).map Pt.lat),
      some ((setMany (List.replicate N (⟨0, 0⟩ : Pt))
        (coordWrites flatIdx crs₁)).map Pt.lon),
      [(dset, setMany (List.replicate N (-1)) (indWrites flatIdx crs₁))]⟩ := by
    rw [hS₁]
    rfl
  have hsrc : ∀ g ∈ chunks.flatten,
      unpackSource (some S₁) flatIdx pixCoord g
        = unpackSource none flatIdx pixCoord g := by
    intro g hg
    rw [unpackSource, unpackSource]
    refine map_congr_mem ?_
    intro p hp
    have hpN : p < N := hbound g hg p hp
    have hread := coords_readback hcrs₁ hgids hnod hdisj hg hp hpN
    show cachedPix S₁ p = pixCoord p
    rw [hS₁', cachedPix]
    dsimp only [Option.getD]
    have hlat : ((setMany (List.replicate N (⟨0, 0⟩ : Pt))
        (coordWrites flatIdx crs₁)).map Pt.lat).getD p 0 = (pixCoord p).lat := by
      rw [List.getD_eq_get?, List.get?_map, hread]
      rfl
    have hlon : ((setMany (List.replicate N (⟨0, 0⟩ : Pt))
        (coordWrites flatIdx crs₁)).map Pt.lon).getD p 0 = (pixCoord p).lon := by
      rw [List.getD_eq_get?, List.get?_map, hread]
      rfl
    rw [hlat, hlon]
  have hcrseq : crs₂ = crs₁ := by
    have hmo : mapOpt (workerRes (unpackSource (some S₁) flatIdx pixCoord)
          resMeta dub2 m) chunks
        = mapOpt (workerRes (unpackSource none flatIdx pixCoord)
          resMeta dub2 m) chunks := by
      refine mapOpt_congr ?_
      intro c hc
      rw [workerRes, workerRes]
      have hcm : c.map (unpackSource (some S₁) flatIdx pixCoord)
          = c.map (unpackSource none flatIdx pixCoord) :=
        map_congr_mem (fun g hg => hsrc g (List.mem_flatten.2 ⟨c, hc, hg⟩))
      rw [hcm]
    rw [hmo, hcrs₁] at hcrs₂
    injection hcrs₂ with h
    exact h.symm
  subst hcrseq
  have hfinal : S₂ = S₁ := by
    rw [hS₂]
    rw [hS₁']
    rw [save_tech_map]
    dsimp only
    rw [dsetsSet_self]
  exact ⟨hfinal, by rw [hfinal]⟩

/-! ### Generation-pass lemmas -/

theorem matchRows_unique {genGids : List Int} (hnd : genGids.Nodup) (r : Int)
    {k₁ k₂ : Nat} (h₁ : k₁ ∈ matchRows genGids r)
    (h₂ : k₂ ∈ matchRows genGids r) : k₁ = k₂ := by
  rw [matchRows, List.mem_filter] at h₁ h₂
  have e₁ : genGids.get? k₁ = some r := of_decide_eq_true h₁.2
  have e₂ : genGids.get? k₂ = some r := of_decide_eq_true h₂.2
  have hk₁ : k₁ < genGids.length := (List.get?_eq_some.1 e₁).1
  exact List.get?_inj hk₁ hnd (e₁.trans e₂.symm)

theorem matchRows_mem_get? {genGids : List Int} {r : Int} {k : Nat}
    (h : k ∈ matchRows genGids r) : genGids.get? k = some r := by
  rw [matchRows, List.mem_filter] at h
  exact of_decide_eq_true h.2

theorem mem_matchRows_of_get? {genGids : List Int} {r : Int} {k : Nat}
    (h : genGids.get? k = some r) : k ∈ matchRows genGids r := by
  rw [matchRows, List.mem_filter]
  exact ⟨List.mem_range.2 (List.get?_eq_some.1 h).1, decide_eq_true h⟩

theorem leftMerge_eq_map {genGids : List Int} (hnd : genGids.Nodup)
    (blk : List Int) :
    leftMerge genGids blk = blk.map (genLookup genGids) := by
  induction blk with
  | nil => rfl
  | cons r rs ih =>
    rw [leftMerge, List.flatMap_cons, ← leftMerge, ih, List.map_cons,
      genLookup]
    cases hm : matchRows genGids r with
    | nil => rfl
    | cons k rest =>
      have hrest : rest = [] := by
        cases rest with
        | nil => rfl
        | cons k₂ r₂ =>
          exfalso
          have hnodmr : (matchRows genGids r).Nodup :=
            List.Nodup.filter _ (List.nodup_range _)
          rw [hm] at hnodmr
          have hne : k ≠ k₂ := by
            intro he
            rcases List.nodup_cons.1 hnodmr with ⟨hk, _⟩
            exact hk (he ▸ List.mem_cons_self _ _)
          exact hne (matchRows_unique hnd r
            (hm ▸ List.mem_cons_self _ _)
            (hm ▸ List.mem_cons_of_mem _ (List.mem_cons_self _ _)))
      subst hrest
      rfl

theorem genWrites_value {resArr genGids : List Int} {flatIdx : Nat → List Nat}
    {chunks : List (List Nat)} {p : Nat} {v : Int} (hnd : genGids.Nodup)
    (hmem : (p, v) ∈ genWrites resArr genGids flatIdx chunks) :
    v = genLookup genGids (resArr.getD p 0) := by
  rw [genWrites] at hmem
  rcases mem_flatten_map.1 hmem with ⟨c, hc, hw⟩
  rcases scatterWrites_mem.1 hw with ⟨gv, hgv, hpv⟩
  rcases mem_zip_iff_get?.1 (show (gv.1, gv.2) ∈ _ from hgv) with ⟨k, hck, hrk⟩
  have hkc : k < c.length := (List.get?_eq_some.1 hck).1
  rw [map_gen_gids, List.get?_append (by
    rw [List.length_map, List.length_map]; exact hkc)] at hrk
  rw [List.map_map, List.get?_map, hck] at hrk
  injection hrk with hrk
  rw [← hrk] at hpv
  dsimp only [Function.comp] at hpv
  simp only [writes] at hpv
  rw [leftMerge_eq_map hnd, readBlock, List.map_map] at hpv
  rcases mem_zip_iff_get?.1 hpv with ⟨i, hfi, hvi⟩
  rw [List.get?_map, hfi] at hvi
  injection hvi with hvi
  exact hvi.symm

theorem genWrites_covers {resArr genGids : List Int} {flatIdx : Nat → List Nat}
    {chunks : List (List Nat)} {p : Nat} (hnd : genGids.Nodup)
    (hcov : ∃ c ∈ chunks, ∃ g ∈ c, p ∈ flatIdx g) :
    (p, genLookup genGids (resArr.getD p 0))
      ∈ genWrites resArr genGids flatIdx chunks := by
  rcases hcov with ⟨c, hc, g, hg, hp⟩
  rw [genWrites]
  apply mem_flatten_map.2
  refine ⟨c, hc, ?_⟩
  apply scatterWrites_mem.2
  rcases List.mem_iff_get?.1 hg with ⟨k, hk⟩
  rcases List.mem_iff_get?.1 hp with ⟨i, hi⟩
  refine ⟨(g, NpVal.arr (leftMerge genGids (readBlock resArr (flatIdx g)))),
    ?_, ?_⟩
  · apply mem_zip_iff_get?.2
    refine ⟨k, hk, ?_⟩
    have hkc : k < c.length := (List.get?_eq_some.1 hk).1
    rw [map_gen_gids, List.get?_append (by
      rw [List.length_map, List.length_map]; exact hkc)]
    rw [List.map_map, List.get?_map, hk]
    rfl
  · rw [writes]
    apply mem_zip_iff_get?.2
    refine ⟨i, hi, ?_⟩
    rw [leftMerge_eq_map hnd, readBlock, List.map_map, List.get?_map, hi]
    rfl

theorem run_gen_map_some {f : Store} {fexcl : String}
    {basename : String → String} {genGids : List Int}
    {flatIdx : Nat → List Nat} {chunks : List (List Nat)} {N : Nat}
    {dsetGen dsetRes : String} {nc : Nat} {S : Store}
    (h : run_gen_map (some f) fexcl basename genGids flatIdx chunks N
      dsetGen dsetRes nc = (some S, none)) :
    ∃ w resArr,
      check_fout (some f) fexcl dsetGen basename = CheckOutcome.proceed w ∧
      lookupD f.dsets dsetRes = some resArr ∧
      S = save_tech_map (some f) (assembleGen resArr genGids flatIdx chunks N)
            none fexcl dsetGen := by
  rw [run_gen_map] at h
  cases hc : check_fout (some f) fexcl dsetGen basename with
  | proceed w =>
    rw [hc] at h
    dsimp only at h
    cases hr : lookupD f.dsets dsetRes with
    | none =>
      rw [hr] at h
      injection h with h₁ h₂
      cases h₂
    | some resArr =>
      rw [hr] at h
      dsimp only at h
      injection h with h₁ h₂
      injection h₁ with h₁
      exact ⟨w, resArr, rfl, rfl, h₁.symm⟩
  | keyError =>
    rw [hc] at h
    injection h with h₁ h₂
    cases h₂
  | fileInputError e =>
    rw [hc] at h
    injection h with h₁ h₂
    cases h₂

/-- C2 (amended): after `run_gen_map`, a pixel whose stored resource id
`r` appears in the generation meta `gid` column (assumed duplicate-free,
as row positions are unique identifiers) maps to that row's position; a
pixel whose stored id does not appear maps to `-1`. The value `-1`
receives no special treatment: it matches a row whose `gid` is `-1` if
one exists. -/
theorem c2_gen_left_join
    (f : Store) (fexcl : String) (basename : String → String)
    (genGids : List Int) (flatIdx : Nat → List Nat)
    (chunks : List (List Nat)) (N : Nat) (dsetGen dsetRes : String)
    (nc : Nat) (S : Store) (resArr : List Int) (p : Nat)
    (hnd : genGids.Nodup)
    (hrun : run_gen_map (some f) fexcl basename genGids flatIdx chunks N
      dsetGen dsetRes nc = (some S, none))
    (hres : lookupD f.dsets dsetRes = some resArr)
    (hlen : resArr.length = N)
    (hp : p < N)
    (hcov : ∃ c ∈ chunks, ∃ g ∈ c, p ∈ flatIdx g) :
    ∃ ind, lookupD S.dsets dsetGen = some ind ∧
      (∀ k : Nat, genGids.get? k = some (resArr.getD p 0) →
        ind.get? p = some (k : Int)) ∧
      ((resArr.getD p 0) ∉ genGids → ind.get? p = some (-1)) := by
  obtain ⟨w, resArr', hck, hres', hS⟩ := run_gen_map_some hrun
  have hra : resArr' = resArr := by
    rw [hres] at hres'
    injection hres' with hinj
    exact hinj.symm
  subst hra
  have hval : (assembleGen resArr' genGids flatIdx chunks N).get? p
      = some (genLookup genGids (resArr'.getD p 0)) := by
    rw [assembleGen]
    refine setMany_get?_of_mem_const _ _ _ _ ?_ (genWrites_covers hnd hcov)
      (fun v hv => genWrites_value hnd hv)
    rw [List.length_replicate]
    exact hp
  refine ⟨assembleGen resArr' genGids flatIdx chunks N, ?_, ?_, ?_⟩
  · rw [hS]
    exact lookup_save_dset _ _ _ _ _
  · intro k hk
    rw [hval]
    have hkm : k ∈ matchRows genGids (resArr'.getD p 0) :=
      mem_matchRows_of_get? hk
    cases hm : matchRows genGids (resArr'.getD p 0) with
    | nil => rw [hm] at hkm; cases hkm
    | cons k₀ rest =>
      have hk₀ : k₀ = k := matchRows_unique hnd _
        (hm ▸ List.mem_cons_self _ _) hkm
      rw [genLookup, hm, hk₀]
  · intro hnotin
    rw [hval]
    have hm : matchRows genGids (resArr'.getD p 0) = [] := by
      cases hm : matchRows genGids (resArr'.getD p 0) with
      | nil => rfl
      | cons k₀ rest =>
        exfalso
        exact hnotin (List.get?_mem
          (matchRows_mem_get? (hm ▸ List.mem_cons_self k₀ rest)))
    rw [genLookup, hm]

/-- C7: the generation pass fails fast — a missing output file or a
missing referenced resource-map dataset raises a fatal error before any
mapping work is dispatched, and the output store is left unchanged. -/
theorem c7_gen_map_fails_fast
    (store : Option Store) (fexcl : String) (basename : String → String)
    (genGids : List Int) (flatIdx : Nat → List Nat)
    (chunks : List (List Nat)) (N : Nat) (dsetGen dsetRes : String)
    (nc : Nat)
    (h : store = none ∨ ∃ f, store = some f ∧ lookupD f.dsets dsetRes = none) :
    (run_gen_map store fexcl basename genGids flatIdx chunks N dsetGen
      dsetRes nc).1 = store ∧
    (run_gen_map store fexcl basename genGids flatIdx chunks N dsetGen
      dsetRes nc).2.isSome := by
  rcases h with h | ⟨f, hf, hl⟩
  · subst h
    exact ⟨rfl, rfl⟩
  · subst hf
    rw [run_gen_map]
    cases hc : check_fout (some f) fexcl dsetGen basename with
    | proceed w =>
      dsimp only
      rw [hl]
      exact ⟨rfl, rfl⟩
    | keyError => exact ⟨rfl, rfl⟩
    | fileInputError e => exact ⟨rfl, rfl⟩

theorem zip_append_of_le {l₁ : List γ} {l₂ l₃ : List δ}
    (h : l₁.length ≤ l₂.length) : l₁.zip (l₂ ++ l₃) = l₁.zip l₂ := by
  induction l₁ generalizing l₂ with
  | nil => simp
  | cons a as ih =>
    cases l₂ with
    | nil => simp at h
    | cons b bs =>
      rw [List.cons_append, List.zip_cons_cons, List.zip_cons_cons,
        ih (by simpa using h)]

/-- C4 (amended): the trailing `else` of the generation worker's per-gid
loop is a Python for-else with no `break` in the loop body, so it always
executes after the loop completes: the returned list holds the `n`
per-gid join results followed by `n` fallback scalar `-1` entries (`2n`
in total), and the consumer's per-batch enumeration (a zip against the
batch's `n` gids) reads only the first `n` entries, so the extra entries
are never scattered. -/
theorem c4_for_else_always_runs (resBlocks : List (List Int))
    (genGids : List Int) (c : List Nat)
    (hc : c.length = resBlocks.length) :
    (map_gen_gids resBlocks genGids).length = 2 * resBlocks.length ∧
    (map_gen_gids resBlocks genGids).drop resBlocks.length
      = resBlocks.map (fun _ => NpVal.scalar (-1)) ∧
    c.zip (map_gen_gids resBlocks genGids)
      = c.zip (resBlocks.map (fun blk => NpVal.arr (leftMerge genGids blk))) := by
  refine ⟨?_, ?_, ?_⟩
  · rw [map_gen_gids, List.length_append, List.length_map, List.length_map]
    ring
  · have hlm : (resBlocks.map (fun blk =>
        NpVal.arr (leftMerge genGids blk))).length = resBlocks.length :=
      List.length_map _ _
    rw [map_gen_gids, ← hlm, List.drop_left]
  · rw [map_gen_gids]
    refine zip_append_of_le ?_
    rw [List.length_map, hc]

/-- C5: a pre-existing output file that has the required
latitude/longitude datasets but no recorded `fpath_excl` attribute makes
`_check_fout` raise an uncaught `KeyError` (the unconditional
`f.attrs` access on the line after the warning is prepared), instead of
the warn-and-proceed behavior the docstring and warning text intend. -/
theorem c5_missing_attr_raises_keyerror :
    check_fout (some ⟨none, some [], some [], []⟩) "excl.tif" "techmap" id
      = CheckOutcome.keyError := rfl

/-! ### Distance-upper-bound inference lemmas -/

theorem distsRaw_perm_adjPairsSpec (lats : List ℚ) :
    (distsRaw lats).Perm (adjPairsSpec lats) := by
  cases lats with
  | nil => exact List.Perm.refl _
  | cons x xs =>
    rw [distsRaw, npRoll1, adjPairsSpec, List.zipWith_cons_cons]
    have hsplit : (x :: xs) = (x :: xs).dropLast
        ++ [(x :: xs).getLast (List.cons_ne_nil x xs)] :=
      (List.dropLast_append_getLast _).symm
    have hlen : (x :: xs).dropLast.length = xs.length := by
      simp [List.length_dropLast]
    have hr : List.zipWith absDiff (x :: xs) (xs ++ [x])
        = List.zipWith absDiff (x :: xs).dropLast xs
          ++ [absDiff ((x :: xs).getLast (List.cons_ne_nil x xs)) x] := by
      conv_lhs => rw [hsplit]
      rw [List.zipWith_append _ _ _ _ _ hlen]
      rfl
    have hcomm : List.zipWith absDiff xs (x :: xs).dropLast
        = List.zipWith absDiff (x :: xs).dropLast xs :=
      List.zipWith_comm_of_comm absDiff (fun a b => abs_sub_comm a b) _ _
    have habs : absDiff x ((x :: xs).getLast (List.cons_ne_nil x xs))
        = absDiff ((x :: xs).getLast (List.cons_ne_nil x xs)) x :=
      abs_sub_comm _ _
    rw [hr, hcomm, habs]
    exact (List.perm_append_singleton _ _).symm

theorem listMin?_perm {l₁ l₂ : List ℚ} (h : l₁.Perm l₂) :
    listMin? l₁ = listMin? l₂ := by
  rw [listMin?, listMin?]
  refine h.foldl_eq' ?_ none
  intro a _ b _ acc
  cases acc with
  | none => dsimp only; rw [min_comm]
  | some mv => dsimp only; rw [min_right_comm]

theorem listMin?_aux_isSome (xs : List ℚ) (mv : ℚ) :
    (xs.foldl (fun acc x =>
      match acc with
      | none => some x
      | some mcur => some (min mcur x)) (some mv)).isSome := by
  induction xs generalizing mv with
  | nil => rfl
  | cons x xs ih => exact ih (min mv x)

theorem listMin?_eq_none_iff (l : List ℚ) : listMin? l = none ↔ l = [] := by
  cases l with
  | nil => exact ⟨fun _ => rfl, fun _ => rfl⟩
  | cons x xs =>
    constructor
    · intro h
      exfalso
      have hs := listMin?_aux_isSome xs x
      rw [listMin?, List.foldl_cons] at h
      dsimp only at h
      rw [h] at hs
      cases hs
    · intro h
      cases h

/-- C9: with no cached value, the first access to `distance_upper_bound`
returns (and caches, and logs) `1.05 * sqrt 2 * (g / 2)` where `g` is the
minimum nonzero absolute difference between adjacent resource-site
latitudes (wrap-around pair included). -/
theorem c9_inferred_bound (lats : List ℚ) (g : ℚ)
    (hg : listMin? ((adjPairsSpec lats).filter (fun d => d != 0)) = some g) :
    distance_upper_bound_get none lats
      = some ((1.05 : ℝ) * Real.sqrt 2 * ((g : ℝ) / 2),
              some ((1.05 : ℝ) * Real.sqrt 2 * ((g : ℝ) / 2)),
              [(1.05 : ℝ) * Real.sqrt 2 * ((g : ℝ) / 2)]) := by
  have hig : inferGap lats = some g := by
    rw [inferGap,
      listMin?_perm ((distsRaw_perm_adjPairsSpec lats).filter _)]
    exact hg
  rw [distance_upper_bound_get, inferredBound, hig]
  rfl

/-- C10: the inference is defined exactly when some adjacent latitude
difference (wrap-around included) is nonzero; when all are zero the
filtered gap array is empty and `dists.min()` raises (modelled as
`none`) instead of returning a bound. -/
theorem c10_inference_error_iff_all_gaps_zero (lats : List ℚ) :
    distance_upper_bound_get none lats = none
      ↔ ∀ d ∈ adjPairsSpec lats, d = 0 := by
  have h1 : distance_upper_bound_get none lats = none
      ↔ inferGap lats = none := by
    rw [distance_upper_bound_get]
    constructor
    · intro h
      cases hig : inferGap lats with
      | none => rfl
      | some g =>
        rw [inferredBound, hig] at h
        cases h
    · intro h
      rw [inferredBound, h]
      rfl
  rw [h1, inferGap,
    listMin?_perm ((distsRaw_perm_adjPairsSpec lats).filter _),
    listMin?_eq_none_iff, List.filter_eq_nil_iff]
  constructor
  · intro h d hd
    by_contra hne
    exact h d hd (by simpa using hne)
  · intro h d hd hb
    rw [h d hd] at hb
    simp at hb

/-- C2 counterexample: a stored resource id of `-1` is joined like any
other value. With resource map `[-1]` and generation meta `gid` column
`[-1]`, the pandas left merge matches row 0, so the persisted generation
map holds `0` at the pixel — not the `-1` the claim requires for
`r = -1`. -/
theorem c2_counterexample :
    run_gen_map (some ⟨some "e", some [], some [], [("res", [-1])]⟩) "e" id
        [-1] (fun _ => [0]) [[0]] 1 "gen" "res" 1
      = (some ⟨some "e", some [], some [], [("res", [-1]), ("gen", [0])]⟩,
         none) ∧
    ((0 : Int) ≠ -1) := by
  exact ⟨by decide, by decide⟩

/-- C4 counterexample: on a non-empty batch whose per-gid loop populates
a result for each gid, the worker's trailing `else` still executes: for
one gid the returned list is `[arr joined, scalar -1]` — two entries, not
the single per-gid entry the claim requires. -/
theorem c4_counterexample :
    map_gen_gids [[(5 : Int)]] [(5 : Int)]
      = [NpVal.arr [(0 : Int)], NpVal.scalar (-1)] ∧
    (map_gen_gids [[(5 : Int)]] [(5 : Int)]).length ≠ 1 := by
  exact ⟨by decide, by decide⟩

/-! ### Witnesses -/

set_option maxHeartbeats 2000000 in
theorem c1_resource_map_nearest_witness :
    run_resource_map none "e" id (fun _ => (⟨0, 0⟩ : Pt)) (fun _ => [0]) [[0]]
        [⟨0, 0⟩] 1 (1 / 10) 1 "t" 1
      = some ⟨some "e", some [0], some [0], [("t", [0])]⟩ ∧
    0 < 1 ∧
    (∃ ind, lookupD (Store.mk (some "e") (some [0]) (some [0])
        [("t", [0])]).dsets "t" = some ind ∧ ind.length = 1 ∧
      (ind.get? 0 = some (-1) ∨
       ∃ c ∈ [[0]], ∃ cands,
         ChunkCands (unpackSource none (fun _ => [0]) (fun _ => ⟨0, 0⟩))
           [⟨0, 0⟩] (1 / 10) c = some cands ∧
         ∃ (j : Nat) (s : Pt), ind.get? 0 = some (j : Int) ∧ (j, s) ∈ cands ∧
           [(⟨0, 0⟩ : Pt)].get? j = some s ∧
           sqDist (pixSource none (fun _ => (⟨0, 0⟩ : Pt)) 0) s ≤ 1 ∧
           ∀ ks ∈ cands, sqDist (pixSource none (fun _ => (⟨0, 0⟩ : Pt)) 0) s
             ≤ sqDist (pixSource none (fun _ => (⟨0, 0⟩ : Pt)) 0) ks.2)) := by
  have hrun : run_resource_map none "e" id (fun _ => (⟨0, 0⟩ : Pt))
      (fun _ => [0]) [[0]] [⟨0, 0⟩] 1 (1 / 10) 1 "t" 1
      = some ⟨some "e", some [0], some [0], [("t", [0])]⟩ := by
    norm_num [run_resource_map, check_fout, assembleRes, mapOpt, workerRes,
      map_resource_gids, unpackRanges, unpackRangesAux, rangeOfBlock,
      candidates, inBox, query1, pixResult, unpackSource, pixSource,
      cachedPix, indWrites, coordWrites, scatterWrites, writes, setMany,
      sqDist, save_tech_map, lookupD, dsetsSet, List.range_succ,
      List.filterMap_cons, List.filterMap_nil, List.zip, List.zipWith,
      List.flatten, List.foldl, List.replicate, List.set]
  exact ⟨hrun, by decide,
    c1_resource_map_nearest none "e" id (fun _ => ⟨0, 0⟩) (fun _ => [0])
      [[0]] [⟨0, 0⟩] 1 (1 / 10) 1 "t" 1 _ 0 hrun (by decide)⟩

theorem c2_gen_left_join_witness :
    ([0] : List Int).Nodup ∧
    run_gen_map (some ⟨some "e", some [], some [], [("res", [0, -1])]⟩) "e" id
        [0] (fun g => [g]) [[0], [1]] 2 "gen" "res" 1
      = (some ⟨some "e", some [], some [],
          [("res", [0, -1]), ("gen", [0, -1])]⟩, none) ∧
    lookupD (Store.mk (some "e") (some []) (some [])
      [("res", [0, -1])]).dsets "res" = some [0, -1] ∧
    ([0, -1] : List Int).length = 2 ∧
    0 < 2 ∧
    (∃ c ∈ [[0], [1]], ∃ g ∈ c, 0 ∈ [g]) ∧
    (∃ ind, lookupD (Store.mk (some "e") (some []) (some [])
        [("res", [0, -1]), ("gen", [0, -1])]).dsets "gen" = some ind ∧
      (∀ k : Nat, ([0] : List Int).get? k
          = some (([0, -1] : List Int).getD 0 0) →
        ind.get? 0 = some (k : Int)) ∧
      ((([0, -1] : List Int).getD 0 0) ∉ ([0] : List Int) →
        ind.get? 0 = some (-1))) := by
  have hrun : run_gen_map (some ⟨some "e", some [], some [],
        [("res", [0, -1])]⟩) "e" id [0] (fun g => [g]) [[0], [1]] 2 "gen"
        "res" 1
      = (some ⟨some "e", some [], some [],
          [("res", [0, -1]), ("gen", [0, -1])]⟩, none) := by decide
  exact ⟨by decide, hrun, by decide, by decide, by decide, by decide,
    c2_gen_left_join ⟨some "e", some [], some [], [("res", [0, -1])]⟩ "e" id
      [0] (fun g => [g]) [[0], [1]] 2 "gen" "res" 1
      ⟨some "e", some [], some [], [("res", [0, -1]), ("gen", [0, -1])]⟩
      [0, -1] 0 (by decide) hrun (by decide) (by decide) (by decide)
      (by decide)⟩

set_option maxHeartbeats 2000000 in
theorem c3_idempotent_rerun_witness :
    ([[0]] : List (List Nat)).flatten.Nodup ∧
    (∀ g ∈ ([[0]] : List (List Nat)).flatten, ([0] : List Nat).Nodup) ∧
    SlotsDisjoint (fun _ => [0]) ([[0]] : List (List Nat)).flatten ∧
    (∀ g ∈ ([[0]] : List (List Nat)).flatten, ∀ p ∈ ([0] : List Nat), p < 1) ∧
    run_resource_map none "e" id (fun _ => (⟨0, 0⟩ : Pt)) (fun _ => [0]) [[0]]
        [⟨0, 0⟩] 1 (1 / 10) 1 "t" 1
      = some ⟨some "e", some [0], some [0], [("t", [0])]⟩ ∧
    run_resource_map (some ⟨some "e", some [0], some [0], [("t", [0])]⟩) "e"
        id (fun _ => (⟨0, 0⟩ : Pt)) (fun _ => [0]) [[0]] [⟨0, 0⟩] 1 (1 / 10)
        1 "t" 2
      = some ⟨some "e", some [0], some [0], [("t", [0])]⟩ ∧
    ((⟨some "e", some [0], some [0], [("t", [0])]⟩ : Store)
        = ⟨some "e", some [0], some [0], [("t", [0])]⟩ ∧
      lookupD (Store.mk (some "e") (some [0]) (some [0])
          [("t", [0])]).dsets "t"
        = lookupD (Store.mk (some "e") (some [0]) (some [0])
          [("t", [0])]).dsets "t") := by
  have h₁ : run_resource_map none "e" id (fun _ => (⟨0, 0⟩ : Pt))
      (fun _ => [0]) [[0]] [⟨0, 0⟩] 1 (1 / 10) 1 "t" 1
      = some ⟨some "e", some [0], some [0], [("t", [0])]⟩ := by
    norm_num [run_resource_map, check_fout, assembleRes, mapOpt, workerRes,
      map_resource_gids, unpackRanges, unpackRangesAux, rangeOfBlock,
      candidates, inBox, query1, pixResult, unpackSource, pixSource,
      cachedPix, indWrites, coordWrites, scatterWrites, writes, setMany,
      sqDist, save_tech_map, lookupD, dsetsSet, List.range_succ,
      List.filterMap_cons, List.filterMap_nil, List.zip, List.zipWith,
      List.flatten, List.foldl, List.replicate, List.set]
  have h₂ : run_resource_map (some ⟨some "e", some [0], some [0],
        [("t", [0])]⟩) "e" id (fun _ => (⟨0, 0⟩ : Pt)) (fun _ => [0]) [[0]]
        [⟨0, 0⟩] 1 (1 / 10) 1 "t" 2
      = some ⟨some "e", some [0], some [0], [("t", [0])]⟩ := by
    norm_num [run_resource_map, check_fout, assembleRes, mapOpt, workerRes,
      map_resource_gids, unpackRanges, unpackRangesAux, rangeOfBlock,
      candidates, inBox, query1, pixResult, unpackSource, pixSource,
      cachedPix, indWrites, coordWrites, scatterWrites, writes, setMany,
      sqDist, save_tech_map, lookupD, dsetsSet, List.range_succ,
      List.filterMap_cons, List.filterMap_nil, List.zip, List.zipWith,
      List.flatten, List.foldl, List.replicate, List.set]
    rfl
  refine ⟨by decide, by decide, by unfold SlotsDisjoint; decide, by decide,
    h₁, h₂, ?_⟩
  exact c3_idempotent_rerun "e" id (fun _ => ⟨0, 0⟩) (fun _ => [0]) [[0]]
    [⟨0, 0⟩] 1 (1 / 10) 1 "t" 1 2 _ _ (by decide) (by decide)
    (by unfold SlotsDisjoint; decide) (by decide) h₁ h₂

theorem c4_for_else_always_runs_witness :
    ([0] : List Nat).length = [[(5 : Int)]].length ∧
    ((map_gen_gids [[(5 : Int)]] [(5 : Int)]).length = 2 * [[(5 : Int)]].length ∧
     (map_gen_gids [[(5 : Int)]] [(5 : Int)]).drop [[(5 : Int)]].length
       = [[(5 : Int)]].map (fun _ => NpVal.scalar (-1)) ∧
     ([0] : List Nat).zip (map_gen_gids [[(5 : Int)]] [(5 : Int)])
       = ([0] : List Nat).zip ([[(5 : Int)]].map
           (fun blk => NpVal.arr (leftMerge [(5 : Int)] blk)))) :=
  ⟨by decide, c4_for_else_always_runs [[(5 : Int)]] [(5 : Int)] [0] (by decide)⟩

set_option maxHeartbeats 2000000 in
theorem c6_empty_batch_all_minus_one_witness :
    ([[0]] : List (List Nat)).flatten.Nodup ∧
    SlotsDisjoint (fun _ => [0]) ([[0]] : List (List Nat)).flatten ∧
    [0] ∈ ([[0]] : List (List Nat)) ∧
    unpackRanges (([0] : List Nat).map
        (unpackSource none (fun _ => [0]) (fun _ => ⟨0, 0⟩)))
      = some ⟨0, 0, 0, 0⟩ ∧
    candidates [(⟨10, 10⟩ : Pt)] ⟨0, 0, 0, 0⟩ (1 / 10) = [] ∧
    run_resource_map none "e" id (fun _ => (⟨0, 0⟩ : Pt)) (fun _ => [0]) [[0]]
        [⟨10, 10⟩] 1 (1 / 10) 1 "t" 1
      = some ⟨some "e", some [0], some [0], [("t", [-1])]⟩ ∧
    0 ∈ ([0] : List Nat) ∧ 0 ∈ ([0] : List Nat) ∧ 0 < 1 ∧
    ((map_resource_gids (([0] : List Nat).map
        (unpackSource none (fun _ => [0]) (fun _ => ⟨0, 0⟩)))
        [⟨10, 10⟩] 1 (1 / 10)).isSome ∧
     ∃ ind, lookupD (Store.mk (some "e") (some [0]) (some [0])
        [("t", [-1])]).dsets "t" = some ind ∧ ind.get? 0 = some (-1)) := by
  have hrng : unpackRanges (([0] : List Nat).map
      (unpackSource none (fun _ => [0]) (fun _ => ⟨0, 0⟩)))
      = some ⟨0, 0, 0, 0⟩ := rfl
  have hempty : candidates [(⟨10, 10⟩ : Pt)] ⟨0, 0, 0, 0⟩ (1 / 10) = [] := by
    norm_num [candidates, inBox, List.range_succ, List.filterMap_cons,
      List.filterMap_nil]
  have hrun : run_resource_map none "e" id (fun _ => (⟨0, 0⟩ : Pt))
      (fun _ => [0]) [[0]] [⟨10, 10⟩] 1 (1 / 10) 1 "t" 1
      = some ⟨some "e", some [0], some [0], [("t", [-1])]⟩ := by
    norm_num [run_resource_map, check_fout, assembleRes, mapOpt, workerRes,
      map_resource_gids, unpackRanges, unpackRangesAux, rangeOfBlock,
      candidates, inBox, query1, pixResult, unpackSource, pixSource,
      cachedPix, indWrites, coordWrites, scatterWrites, writes, setMany,
      sqDist, save_tech_map, lookupD, dsetsSet, List.range_succ,
      List.filterMap_cons, List.filterMap_nil, List.zip, List.zipWith,
      List.flatten, List.foldl, List.replicate, List.set]
  exact ⟨by decide, by unfold SlotsDisjoint; decide, by decide, hrng, hempty,
    hrun, by decide, by decide, by decide,
    c6_empty_batch_all_minus_one none "e" id (fun _ => ⟨0, 0⟩) (fun _ => [0])
      [[0]] [⟨10, 10⟩] 1 (1 / 10) 1 "t" 1 _ [0] ⟨0, 0, 0, 0⟩ 0 0 (by decide)
      (by unfold SlotsDisjoint; decide) (by decide) hrng hempty hrun
      (by decide) (by decide) (by decide)⟩

theorem c7_gen_map_fails_fast_witness :
    (run_gen_map none "e" id [] (fun _ => []) [] 0 "gen" "res" 1).1 = none ∧
    (run_gen_map none "e" id [] (fun _ => []) [] 0 "gen" "res" 1).2.isSome :=
  c7_gen_map_fails_fast none "e" id [] (fun _ => []) [] 0 "gen" "res" 1
    (Or.inl rfl)

set_option maxHeartbeats 2000000 in
theorem c8_order_and_worker_count_invariance_witness :
    ([[0], [1]] : List (List Nat)).Perm [[1], [0]] ∧
    ([[1], [0]] : List (List Nat)).flatten.Nodup ∧
    (∀ g ∈ ([[1], [0]] : List (List Nat)).flatten, ([g] : List Nat).Nodup) ∧
    SlotsDisjoint (fun g => [g]) ([[1], [0]] : List (List Nat)).flatten ∧
    run_resource_map none "e" id (fun p => ⟨(p : ℚ), 0⟩) (fun g => [g])
        [[0], [1]] [⟨0, 0⟩] 100 1 2 "t" 1
      = some ⟨some "e", some [0, 1], some [0, 0], [("t", [0, -1])]⟩ ∧
    run_resource_map none "e" id (fun p => ⟨(p : ℚ), 0⟩) (fun g => [g])
        [[1], [0]] [⟨0, 0⟩] 100 1 2 "t" 2
      = some ⟨some "e", some [0, 1], some [0, 0], [("t", [0, -1])]⟩ ∧
    (Store.mk (some "e") (some [0, 1]) (some [0, 0]) [("t", [0, -1])])
      = (Store.mk (some "e") (some [0, 1]) (some [0, 0]) [("t", [0, -1])]) := by
  have h₁ : run_resource_map none "e" id (fun p => ⟨(p : ℚ), 0⟩)
      (fun g => [g]) [[0], [1]] [⟨0, 0⟩] 100 1 2 "t" 1
      = some ⟨some "e", some [0, 1], some [0, 0], [("t", [0, -1])]⟩ := by
    norm_num [run_resource_map, check_fout, assembleRes, mapOpt, workerRes,
      map_resource_gids, unpackRanges, unpackRangesAux, rangeOfBlock,
      candidates, inBox, query1, pixResult, unpackSource, pixSource,
      cachedPix, indWrites, coordWrites, scatterWrites, writes, setMany,
      sqDist, save_tech_map, lookupD, dsetsSet, List.range_succ,
      List.filterMap_cons, List.filterMap_nil, List.zip, List.zipWith,
      List.flatten, List.foldl, List.replicate, List.set]
  have h₂ : run_resource_map none "e" id (fun p => ⟨(p : ℚ), 0⟩)
      (fun g => [g]) [[1], [0]] [⟨0, 0⟩] 100 1 2 "t" 2
      = some ⟨some "e", some [0, 1], some [0, 0], [("t", [0, -1])]⟩ := by
    norm_num [run_resource_map, check_fout, assembleRes, mapOpt, workerRes,
      map_resource_gids, unpackRanges, unpackRangesAux, rangeOfBlock,
      candidates, inBox, query1, pixResult, unpackSource, pixSource,
      cachedPix, indWrites, coordWrites, scatterWrites, writes, setMany,
      sqDist, save_tech_map, lookupD, dsetsSet, List.range_succ,
      List.filterMap_cons, List.filterMap_nil, List.zip, List.zipWith,
      List.flatten, List.foldl, List.replicate, List.set]
  exact ⟨by decide, by decide, by decide, by unfold SlotsDisjoint; decide,
    h₁, h₂,
    c8_order_and_worker_count_invariance none "e" id (fun p => ⟨(p : ℚ), 0⟩)
      (fun g => [g]) [[0], [1]] [[1], [0]] [⟨0, 0⟩] 100 1 2 "t" 1 2 _ _
      (by decide) (by decide) (by decide) (by unfold SlotsDisjoint; decide)
      h₁ h₂⟩

theorem c9_inferred_bound_witness :
    listMin? ((adjPairsSpec [0, 1, 3]).filter (fun d => d != 0)) = some 1 ∧
    distance_upper_bound_get none [0, 1, 3]
      = some ((1.05 : ℝ) * Real.sqrt 2 * (((1 : ℚ) : ℝ) / 2),
              some ((1.05 : ℝ) * Real.sqrt 2 * (((1 : ℚ) : ℝ) / 2)),
              [(1.05 : ℝ) * Real.sqrt 2 * (((1 : ℚ) : ℝ) / 2)]) := by
  have hg : listMin? ((adjPairsSpec [0, 1, 3]).filter (fun d => d != 0))
      = some 1 := by
    norm_num [adjPairsSpec, absDiff, listMin?, List.zipWith, List.filter,
      List.foldl]
  exact ⟨hg, c9_inferred_bound [0, 1, 3] 1 hg⟩
